import Mathlib

/-!
Shallow embedding of the offer-resolution, order-lifecycle and token-ledger
engine of the user-credits-core repository (BaseService.ts and its revisions
kept under src/unnamed/part_000), together with theorems settling the claims
of the specification.

Conventions of the embedding:
- JS instants (Date) are modelled as Int epoch milliseconds.
- Nullable / possibly-undefined fields are Option.
- JS numeric truthiness (0 and undefined are falsy) is modelled explicitly.
- Fallible code returns Except Err.
- The calendar-aware date helpers addDays, addMonths, addYears, addSeconds
  live in a util module that is not part of the sources; following the
  specification they are kept abstract as a DateOps record parameter.
-/

namespace UserCredits

/-- One balance-sheet entry per offerGroup of a user (IActivatedOffer). -/
structure ActivatedOffer where
  offerGroup : String
  starts : Option Int
  expires : Option Int
  tokens : Option Int
deriving DecidableEq, Repr

/-- A bundled sub-offer reference inside an offer (ICombinedOffer).
The runtime casts this record to IExpiryDateComputeInput and ITokenHolder,
so the fields those casts may read are carried as options. -/
structure CombinedOffer where
  offerId : String
  offerGroup : String
  quantity : Option Int
  cycle : Option String
  customCycle : Option Int
  tokenCount : Option Int
  starts : Option Int
deriving DecidableEq, Repr

/-- A purchasable catalog item (IOffer), restricted to the fields the
embedded operations read. -/
structure Offer where
  _id : String
  offerGroup : String
  cycle : Option String
  customCycle : Option Int
  tokenCount : Option Int
  price : Int
  quantityLimit : Option Int
  appendDate : Bool
  overridingKey : String
  weight : Int
  combinedItems : List CombinedOffer
deriving DecidableEq, Repr

/-- A line of IOrder.combinedItems (ICombinedOrder). -/
structure CombinedOrderItem where
  offerGroup : String
  offerId : String
  quantity : Option Int
  tokenCount : Option Int
  cycle : Option String
  starts : Option Int
  expires : Option Int
deriving DecidableEq, Repr

/-- A purchase record (IOrder), restricted to the fields the embedded
operations read. -/
structure Order where
  _id : String
  userId : String
  offerGroup : String
  offerId : String
  parentId : Option String
  quantity : Option Int
  total : Int
  status : String
  starts : Option Int
  expires : Option Int
  tokenCount : Option Int
  cycle : Option String
  customCycle : Option Int
  currency : String
  combinedItems : List CombinedOrderItem
deriving DecidableEq, Repr

/-- An append-only ledger line (ITokenTimetable). -/
structure TokenTimetable where
  offerGroup : String
  userId : String
  tokens : Option Int
deriving DecidableEq, Repr

/-- The error taxonomy of the service layer. -/
inductive Err where
  | invalidOrder (msg : String)
  | invalidCycle
  | offerNotFound
  | illegalState (msg : String)
deriving DecidableEq, Repr

/-- The calendar-aware date helpers imported from the util module of the
repository. Modelled from the spec: the util sources are not in the pack;
section 4.1 describes them as calendar-aware additions of days, months,
years and seconds, so they are kept abstract here and every theorem that
needs them quantifies over this record. -/
structure DateOps (D : Type) where
  addDays : D → Int → D
  addMonths : D → Int → D
  addYears : D → Int → D
  addSeconds : D → Int → D

/-- JS numeric truthiness of a possibly-undefined number: 0 and undefined
are falsy. -/
def otruthy : Option Int → Bool
  | some v => v != 0
  | none => false

/-- JS expression v OR 1 on a number: yields 1 when v is 0. -/
def orOne (v : Int) : Int := if v == 0 then 1 else v

/-- JS expression v OR 1 on a possibly-undefined number. -/
def orOneO : Option Int → Int
  | some v => orOne v
  | none => 1

/-! ## mergeOffers (BaseService.ts lines 174-204, identical in all revisions)

The JS Map is modelled as an association list: set keeps the original
insertion position of an existing key and appends a fresh key at the end,
values iterates in that order, exactly as a JS Map does. -/

/-- Lookup in the association-list model of a JS Map. -/
def mapGet (m : List (String × Offer)) (k : String) : Option Offer :=
  (m.find? (fun p => p.1 == k)).map (fun p => p.2)

/-- Insertion in the association-list model of a JS Map: replaces in place
or appends at the end. -/
def mapSet (m : List (String × Offer)) (k : String) (v : Offer) : List (String × Offer) :=
  if m.any (fun p => p.1 == k) then
    m.map (fun p => if p.1 == k then (k, v) else p)
  else m ++ [(k, v)]

/-- The loop of mergeOffers populating the map of unlocked offers keyed by
overridingKey, keeping the heaviest offer per key. The source guard is
NOT existing OR unlocked.weight GREATER THAN (existing.weight OR 0); on
integers the OR 0 is the identity, so it is written plainly. -/
def buildUnlockedMap (unlockedOffers : List Offer) : List (String × Offer) :=
  unlockedOffers.foldl
    (fun m u =>
      match mapGet m u.overridingKey with
      | none => mapSet m u.overridingKey u
      | some existing =>
          if existing.weight < u.weight then mapSet m u.overridingKey u else m)
    []

/-- Merge regular offers with unlocked (dependent) offers, applying the
overriding logic of BaseService.mergeOffers. -/
def mergeOffers (regularOffers unlockedOffers : List Offer) : List Offer :=
  let unlockedOffersMap := buildUnlockedMap unlockedOffers
  let mergedOffers := regularOffers.filter
    (fun r => (mapGet unlockedOffersMap r.overridingKey).isNone)
  mergedOffers ++ unlockedOffersMap.map (fun p => p.2)

/-! ## calculateExpiryDate (BaseService.ts lines 525-561) -/

/-- The fields of IExpiryDateComputeInput that calculateExpiryDate reads. -/
structure ExpiryInput (D : Type) where
  cycle : Option String
  customCycle : Option Int
  quantity : Option Int
  starts : D

/-- Expiry computation dispatching on the renewal cycle, from the switch in
calculateExpiryDate. The quantity destructuring default yields 1 only when
quantity is undefined. -/
def calculateExpiryDate {D : Type} (ops : DateOps D) (order : ExpiryInput D)
    (quantityMultiplier : Int) : Except Err D :=
  let quantity := order.quantity.getD 1
  let totalQuantity := quantityMultiplier * quantity
  let date := order.starts
  if order.cycle == some "once" then .ok date
  else if order.cycle == some "daily" then .ok (ops.addDays date totalQuantity)
  else if order.cycle == some "weekly" then .ok (ops.addDays date (7 * totalQuantity))
  else if order.cycle == some "bi-weekly" then .ok (ops.addDays date (14 * totalQuantity))
  else if order.cycle == some "monthly" then .ok (ops.addMonths date totalQuantity)
  else if order.cycle == some "trimester" then .ok (ops.addMonths date (3 * totalQuantity))
  else if order.cycle == some "semester" then .ok (ops.addMonths date (4 * totalQuantity))
  else if order.cycle == some "yearly" then .ok (ops.addYears date totalQuantity)
  else if order.cycle == some "custom" then
    match order.customCycle with
    | some customCycle =>
        if 0 ≤ customCycle then .ok (ops.addSeconds date (customCycle * totalQuantity))
        else .error .invalidCycle
    | none => .error .invalidCycle
  else .error .invalidCycle

/-! ## computeTotal and createOrder (BaseService.ts lines 430-440, 101-132) -/

/-- Total computation with the quantity-limit check of computeTotal. The
source throws InvalidOrder when quantityLimit is not null, quantity is not
undefined and quantity exceeds the limit. -/
def computeTotal (quantity : Option Int) (offer : Offer) : Except Err Int :=
  match offer.quantityLimit, quantity with
  | some limit, some q =>
      if limit < q then .error (.invalidOrder "Requested quantity exceeds the limit")
      else .ok (offer.price * q)
  | some _, none => .ok offer.price
  | none, some q => .ok (offer.price * q)
  | none, none => .ok offer.price

/-- The loop of prefillCombinedOrders: unresolvable sub-offers are logged
and skipped, resolvable ones produce a combined-order line whose tokenCount
is (item.quantity OR 1) times the sub-offer tokenCount (undefined read
as 0). -/
def prefillCombinedOrders (offers : List Offer) (offer : Offer) : List CombinedOrderItem :=
  offer.combinedItems.filterMap
    (fun item =>
      match offers.find? (fun o => o._id == item.offerId) with
      | none => none
      | some combinedOffer =>
          some { offerGroup := item.offerGroup
                 offerId := item.offerId
                 quantity := item.quantity
                 tokenCount := some (orOneO item.quantity * combinedOffer.tokenCount.getD 0)
                 cycle := none
                 starts := none
                 expires := none })

/-- Order creation from createOrder: loads the offer, checks the quantity
limit through computeTotal, then creates a pending order copying cycle,
customCycle, offerGroup and tokenCount from the offer, with the combined
items prefilled. The created id is left opaque. -/
def createOrder (offers : List Offer) (offerId userId : String)
    (quantity : Option Int) (currency : String) : Except Err Order :=
  match offers.find? (fun o => o._id == offerId) with
  | none => .error .offerNotFound
  | some offer =>
    match computeTotal quantity offer with
    | .error e => .error e
    | .ok total =>
        .ok { _id := "created"
              userId := userId
              offerGroup := offer.offerGroup
              offerId := offerId
              parentId := none
              quantity := quantity
              total := total
              status := "pending"
              starts := none
              expires := none
              tokenCount := offer.tokenCount
              cycle := offer.cycle
              customCycle := offer.customCycle
              currency := currency
              combinedItems := prefillCombinedOrders offers offer }

/-! ## computeStartDate (BaseService.ts lines 571-608; the part_000 revision
at lines 1358-1395 returns the date instead of mutating, with the same
result) -/

/-- JS string truthiness: undefined and the empty string are falsy. -/
def struthy : Option String → Bool
  | some s => s != ""
  | none => false

/-- The combined IExpiryDateComputeInput and ITokenHolder record that the
date and token routines receive. The userId is optional because the cast
from ICombinedOffer leaves it undefined unless a revision assigns it. -/
structure OrderSpec where
  offerGroup : String
  offerId : String
  userId : Option String
  quantity : Option Int
  tokenCount : Option Int
  cycle : Option String
  customCycle : Option Int
  starts : Option Int
  expires : Option Int
deriving DecidableEq, Repr

/-- The query predicate of computeStartDate: previously paid orders of the
same user and offerGroup having a recorded expires. A spec with an
undefined userId matches no stored order. -/
def isPriorPaidOrder (spec : OrderSpec) (o : Order) : Bool :=
  o.expires.isSome && o.offerGroup == spec.offerGroup && o.status == "paid" &&
    (match spec.userId with
     | some uid => o.userId == uid
     | none => false)

/-- The expires instant of an order under the sort key expires OR 0 used by
computeStartDate; entries reaching this point always carry some expires. -/
def expiresValue (o : Order) : Int := o.expires.getD 0

/-- The expires of the head of the list sorted by descending expires, that
is the greatest expires value of the list. -/
def maxExpires : List Order → Int
  | [] => 0
  | o :: rest => rest.foldl (fun acc x => max acc (expiresValue x)) (expiresValue o)

/-- Start-date policy of computeStartDate: an explicit start date is kept
unless it lies strictly in the past; otherwise appendDate of the offer
decides between now and the latest expiry of prior paid orders of the
group, clamped up to now. -/
def computeStartDate (now : Int) (offersStore : List Offer) (ordersStore : List Order)
    (spec : OrderSpec) : Except Err Int :=
  match spec.starts with
  | some s =>
      if s < now then .error (.invalidOrder "Explicit start date has passed")
      else .ok s
  | none =>
      let offer := offersStore.find? (fun o => o._id == spec.offerId)
      let appendDate := (offer.map (fun o => o.appendDate)).getD false
      if !appendDate then .ok now
      else
        let orderList := ordersStore.filter (isPriorPaidOrder spec)
        if orderList.isEmpty then .ok now
        else
          let starts := maxExpires orderList
          .ok (if starts < now then now else starts)

/-! ## tokensConsumed (BaseService.ts lines 228-260, identical in the
part_000 revision) -/

/-- The find callback of tokensConsumed mutates the first entry of the
matching offerGroup in place; none signals that no entry matched. -/
def consumeFirst (offerGroup : String) (count : Int) :
    List ActivatedOffer → Option (List ActivatedOffer)
  | [] => none
  | o :: rest =>
      if o.offerGroup == offerGroup then
        some ({ o with tokens := some (o.tokens.getD 0 - count) } :: rest)
      else (consumeFirst offerGroup count rest).map (fun r => o :: r)

/-- Token consumption: always writes a ledger line of minus count, then
decrements the balance of the first matching group, or pushes a fresh
entry with a negative balance, starting now and with no expiry, when the
group is absent. The caller is a user that owns a UserCredits aggregate,
whose offers list is the second argument. -/
def tokensConsumed (now : Int) (offers : List ActivatedOffer)
    (userId offerGroup : String) (count : Int) :
    TokenTimetable × List ActivatedOffer :=
  let tokenTimetable : TokenTimetable :=
    { offerGroup := offerGroup, userId := userId, tokens := some (-count) }
  match consumeFirst offerGroup count offers with
  | some offers2 => (tokenTimetable, offers2)
  | none =>
      (tokenTimetable,
        offers ++ [{ offerGroup := offerGroup, starts := some now,
                     expires := none, tokens := some (-count) }])

/-! ## updateOfferGroupTokens (BaseService.ts lines 858-893) -/

/-- The ITokenHolder fields read by updateOfferGroupTokens. -/
structure TokenHolder where
  offerGroup : String
  quantity : Option Int
  tokenCount : Option Int
deriving DecidableEq, Repr

/-- In-place update of the first balance-sheet entry of a group, returning
the updated list together with the updated entry, or none when no entry
matches. -/
def extendFirstGroup (g : String) (f : ActivatedOffer → ActivatedOffer) :
    List ActivatedOffer → Option (List ActivatedOffer × ActivatedOffer)
  | [] => none
  | o :: rest =>
      if o.offerGroup == g then
        let o2 := f o
        some (o2 :: rest, o2)
      else
        (extendFirstGroup g f rest).map (fun r => (o :: r.1, r.2))

/-- Balance application of the BaseService.ts revision: first the token
holder tokenCount, when strictly positive, is scaled in place by quantity
times (order.quantity OR 1); then an existing entry of the group gets its
expires overwritten and, when the scaled tokenCount is truthy, its balance
(a falsy balance read as 0) incremented by tokenCount times quantity;
otherwise a fresh entry with the given expires, starts and tokenCount is
pushed. Returns the new list, the touched entry and the mutated holder. -/
def updateOfferGroupTokens (order : TokenHolder) (offers : List ActivatedOffer)
    (expires starts : Option Int) (quantity : Int) :
    List ActivatedOffer × ActivatedOffer × TokenHolder :=
  let order1 :=
    if (match order.tokenCount with | some t => decide (0 < t) | none => false) then
      { order with tokenCount := some (quantity * order.tokenCount.getD 0 * orOneO order.quantity) }
    else order
  match extendFirstGroup order1.offerGroup
      (fun existing =>
        { existing with
          expires := expires
          tokens := if otruthy order1.tokenCount then
              some (existing.tokens.getD 0 + order1.tokenCount.getD 0 * quantity)
            else existing.tokens }) offers with
  | some r => (r.1, r.2, order1)
  | none =>
      let newOffer : ActivatedOffer :=
        { offerGroup := order1.offerGroup, starts := starts, expires := expires,
          tokens := order1.tokenCount }
      (offers ++ [newOffer], newOffer, order1)

/-! ## updateOrderDateAndTokens and the nested-item routines of
BaseService.ts (lines 729-777, 779-814, 830-844) -/

/-- Date computation and token update for one order item: compute the start
date, derive the expiry from it, and apply the result onto the balance
sheet (updateOrderDateAndTokens). -/
def updateOrderDateAndTokens (ops : DateOps Int) (now : Int)
    (offersStore : List Offer) (ordersStore : List Order)
    (spec : OrderSpec) (offers : List ActivatedOffer) (quantity : Int) :
    Except Err (List ActivatedOffer × ActivatedOffer × OrderSpec) :=
  match computeStartDate now offersStore ordersStore spec with
  | .error e => .error e
  | .ok starts =>
      match calculateExpiryDate ops
          { cycle := spec.cycle, customCycle := spec.customCycle,
            quantity := spec.quantity, starts := starts } quantity with
      | .error e => .error e
      | .ok expires =>
          let r := updateOfferGroupTokens
            { offerGroup := spec.offerGroup, quantity := spec.quantity,
              tokenCount := spec.tokenCount }
            offers (some expires) (some starts) quantity
          .ok (r.1, r.2.1,
            { spec with starts := some starts, expires := some expires,
                        tokenCount := r.2.2.tokenCount })

/-- Nested-item date and token handling of the BaseService.ts revision
(lines 779-814): the item, cast to an order spec, receives the offer
tokenCount when its own is falsy; a truthy cycle triggers the full date
computation, otherwise the starts and expires of the root offerGroup entry
are inherited; either way the tokens flow through updateOfferGroupTokens
with the root order quantity. A missing root entry is the JS crash on the
non-null assertion. -/
def updateNestedItemDateAndTokens (ops : DateOps Int) (now : Int)
    (offersStore : List Offer) (ordersStore : List Order)
    (offer : Offer) (rootOrder : Order) (offers : List ActivatedOffer)
    (item : CombinedOffer) : Except Err (List ActivatedOffer) :=
  let spec0 : OrderSpec :=
    { offerGroup := item.offerGroup, offerId := item.offerId, userId := none,
      quantity := item.quantity, tokenCount := item.tokenCount,
      cycle := item.cycle, customCycle := item.customCycle,
      starts := item.starts, expires := none }
  let spec1 :=
    if !otruthy spec0.tokenCount && otruthy offer.tokenCount then
      { spec0 with tokenCount := offer.tokenCount }
    else spec0
  if struthy spec1.cycle then
    match updateOrderDateAndTokens ops now offersStore ordersStore spec1 offers
        (rootOrder.quantity.getD 1) with
    | .error e => .error e
    | .ok r => .ok r.1
  else
    match offers.find? (fun i => i.offerGroup == rootOrder.offerGroup) with
    | none => .error (.illegalState "root offer group entry missing")
    | some mainGroup =>
        let spec2 := { spec1 with starts := mainGroup.starts, expires := mainGroup.expires }
        let r := updateOfferGroupTokens
          { offerGroup := spec2.offerGroup, quantity := spec2.quantity,
            tokenCount := spec2.tokenCount }
          offers spec2.expires spec2.starts (rootOrder.quantity.getD 1)
        .ok r.1

/-- The observable outcome of processing one bundled item of a paid root
order. -/
structure NestedPaidResult where
  offers : List ActivatedOffer
  childOrder : Order
  ledgerEntry : TokenTimetable
deriving DecidableEq, Repr

/-- Bundled-item processing of the BaseService.ts revision (lines 729-777):
after the date and token update, the freshly computed entry of the item
offerGroup is read back and its tokens, starts and expires become the
child order fields; the child order is persisted already paid, linked to
the root order and with total 0, and a ledger line with the same tokens is
written. A missing sub-offer is the JS crash dereferencing the cast. -/
def updateNestedItemAsPaid (ops : DateOps Int) (now : Int)
    (offersStore : List Offer) (ordersStore : List Order)
    (item : CombinedOffer) (offers : List ActivatedOffer) (rootOrder : Order)
    (userCreditsUserId : String) : Except Err NestedPaidResult :=
  match offersStore.find? (fun o => o._id == item.offerId) with
  | none => .error (.illegalState "combined offer cannot be resolved")
  | some offer =>
      match updateNestedItemDateAndTokens ops now offersStore ordersStore offer
          rootOrder offers item with
      | .error e => .error e
      | .ok offers2 =>
          let computed := offers2.find? (fun o => o.offerGroup == item.offerGroup)
          let childOrder : Order :=
            { _id := "created"
              userId := userCreditsUserId
              offerGroup := item.offerGroup
              offerId := item.offerId
              parentId := some rootOrder._id
              quantity := some (orOneO item.quantity * orOneO rootOrder.quantity)
              total := 0
              status := "paid"
              starts := computed.bind (fun c => c.starts)
              expires := computed.bind (fun c => c.expires)
              tokenCount := computed.bind (fun c => c.tokens)
              cycle := offer.cycle
              customCycle := offer.customCycle
              currency := rootOrder.currency
              combinedItems := [] }
          let ledgerEntry : TokenTimetable :=
            { offerGroup := item.offerGroup, userId := userCreditsUserId,
              tokens := computed.bind (fun c => c.tokens) }
          .ok { offers := offers2, childOrder := childOrder, ledgerEntry := ledgerEntry }

/-! ## The part_000 revision of BaseService.ts (first document of
src/unnamed/part_000): balance application through appendOrPushActiveOffer
(lines 1620-1638) and the appendDate-driven nested-item handling
(lines 1575-1618). -/

namespace Part000

/-- Balance application of the part_000 revision: an existing entry of the
group gets its expires and starts overwritten; its tokens are incremented
by the fresh tokens only when both the existing balance and the fresh
tokens are truthy; when no entry exists the fresh record is pushed. -/
def appendOrPushActiveOffer : List ActivatedOffer → ActivatedOffer →
    List ActivatedOffer × ActivatedOffer
  | [], activeOffer => ([activeOffer], activeOffer)
  | o :: rest, activeOffer =>
      if o.offerGroup == activeOffer.offerGroup then
        let found :=
          { o with
            expires := activeOffer.expires
            starts := activeOffer.starts
            tokens := if otruthy o.tokens then
                (if otruthy activeOffer.tokens then
                  some (o.tokens.getD 0 + activeOffer.tokens.getD 0)
                 else o.tokens)
              else o.tokens }
        (found :: rest, found)
      else
        let r := appendOrPushActiveOffer rest activeOffer
        (o :: r.1, r.2)

/-- Nested-item date and token handling of the part_000 revision: the item
receives the offer tokenCount when its own is falsy; when the sub-offer
appendDate is set, the start date policy runs independently for the item
offerGroup (with the root user id and the offer cycle as fallback) and the
expiry follows from that start; otherwise starts and expires are inherited
from the root offerGroup entry. The granted tokens are always root
quantity (OR 1) times item quantity (OR 1) times tokenCount (read as 0),
applied through appendOrPushActiveOffer. -/
def updateNestedItemDateAndTokens (ops : DateOps Int) (now : Int)
    (offersStore : List Offer) (ordersStore : List Order)
    (offer : Offer) (rootOrder : Order) (offers : List ActivatedOffer)
    (item : CombinedOffer) :
    Except Err (List ActivatedOffer × ActivatedOffer) :=
  let tokenCount :=
    if !otruthy item.tokenCount && otruthy offer.tokenCount then offer.tokenCount
    else item.tokenCount
  let grantedTokens :=
    orOneO rootOrder.quantity * orOneO item.quantity * tokenCount.getD 0
  if offer.appendDate then
    let cycle := match item.cycle with | some c => some c | none => offer.cycle
    let spec : OrderSpec :=
      { offerGroup := item.offerGroup, offerId := item.offerId,
        userId := some rootOrder.userId, quantity := item.quantity,
        tokenCount := tokenCount, cycle := cycle,
        customCycle := item.customCycle, starts := item.starts, expires := none }
    match computeStartDate now offersStore ordersStore spec with
    | .error e => .error e
    | .ok starts =>
        match calculateExpiryDate ops
            { cycle := cycle, customCycle := item.customCycle,
              quantity := item.quantity, starts := starts }
            (rootOrder.quantity.getD 1) with
        | .error e => .error e
        | .ok expires =>
            .ok (appendOrPushActiveOffer offers
              { offerGroup := item.offerGroup, starts := some starts,
                expires := some expires, tokens := some grantedTokens })
  else
    match offers.find? (fun i => i.offerGroup == rootOrder.offerGroup) with
    | none => .error (.illegalState "root offer group entry missing")
    | some rootActiveOffer =>
        .ok (appendOrPushActiveOffer offers
          { offerGroup := item.offerGroup, starts := rootActiveOffer.starts,
            expires := rootActiveOffer.expires, tokens := some grantedTokens })

end Part000

/-! ## Expiry sweep: processExpiredOrderGroup (BaseService.ts lines
355-386) and checkForExpiredOrders (lines 280-338), identical in the
part_000 revision. The consumptionInDateRange collaborator of the token
ledger store is an external parameter. -/

/-- The candidate query of processExpiredOrderGroup: paid orders of the
user in the offerGroup. -/
def isExpiredCandidate (userId offerGroup : String) (o : Order) : Bool :=
  o.userId == userId && o.status == "paid" && o.offerGroup == offerGroup

/-- Processing of expired orders of one offerGroup: every candidate whose
expires is not in the future contributes its granted tokenCount plus the
recorded consumption between its starts and expires, and flips to the
expired status; candidates that did not expire are left untouched. A
candidate without expires is the JS crash reading getTime of undefined,
surfaced as an error. -/
def processExpiredOrderGroup (consumption : String → Option Int → Option Int → Int)
    (now : Int) (orders : List Order) (userId offerGroup : String) :
    Except Err (Int × List Order) :=
  let orderList := orders.filter (isExpiredCandidate userId offerGroup)
  if orderList.all (fun o => o.expires.isSome) then
    let tokensToSubtract := orderList.foldl
      (fun acc o =>
        if now < expiresValue o then acc
        else acc + o.tokenCount.getD 0 + consumption offerGroup o.starts o.expires) 0
    let orders2 := orders.map
      (fun o =>
        if isExpiredCandidate userId offerGroup o && decide (expiresValue o ≤ now) then
          { o with status := "expired" }
        else o)
    .ok (tokensToSubtract, orders2)
  else .error (.illegalState "paid order without expires")

/-- The low-token warning branch of the sweep loop: a truthy balance that
does not exceed a configured minimum for the group adds the entry to the
warnings. -/
def lowWarn (low : Option (List (Int × String))) (g : ActivatedOffer) :
    List ActivatedOffer :=
  if otruthy g.tokens then
    match low with
    | none => []
    | some specs =>
        match specs.find? (fun l => l.2 == g.offerGroup) with
        | none => []
        | some l => if g.tokens.getD 0 - l.1 ≤ 0 then [g] else []
  else []

/-- The loop of checkForExpiredOrders over the balance sheet, threading the
order store through the per-group expiry processing and collecting the
expired entries (already carrying the decremented balance) and the
warnings. -/
def sweepLoop (consumption : String → Option Int → Option Int → Int)
    (now : Int) (uid : String) (warnBefore : Int)
    (low : Option (List (Int × String))) :
    List ActivatedOffer → List Order →
    Except Err (List ActivatedOffer × List ActivatedOffer × List Order)
  | [], orders => .ok ([], [], orders)
  | g :: rest, orders =>
      match g.expires with
      | none => sweepLoop consumption now uid warnBefore low rest orders
      | some e =>
          if e - now ≤ warnBefore then
            if e - now ≤ 0 then
              match processExpiredOrderGroup consumption now orders uid g.offerGroup with
              | .error err => .error err
              | .ok r =>
                  let g2 := { g with tokens := some (g.tokens.getD 0 - r.1) }
                  match sweepLoop consumption now uid warnBefore low rest r.2 with
                  | .error err => .error err
                  | .ok rr => .ok (g2 :: rr.1, lowWarn low g2 ++ rr.2.1, rr.2.2)
            else
              match sweepLoop consumption now uid warnBefore low rest orders with
              | .error err => .error err
              | .ok rr => .ok (rr.1, g :: (lowWarn low g ++ rr.2.1), rr.2.2)
          else
            match sweepLoop consumption now uid warnBefore low rest orders with
            | .error err => .error err
            | .ok rr => .ok (rr.1, lowWarn low g ++ rr.2.1, rr.2.2)

/-- The outcome of checkForExpiredOrders: the reported expired entries and
warnings, the surviving balance sheet, the updated order store and how
many times the aggregate was saved. -/
structure SweepResult where
  expired : List ActivatedOffer
  warnings : List ActivatedOffer
  offers : List ActivatedOffer
  orders : List Order
  saveCount : Nat
deriving DecidableEq, Repr

/-- The expiry sweep checkForExpiredOrders: walks the balance sheet of the
user, classifies entries as expired or warned, removes every expired group
from the balance sheet and persists once when anything expired. A user
without a UserCredits record yields empty reports. -/
def checkForExpiredOrders (consumption : String → Option Int → Option Int → Int)
    (now : Int) (uc : Option (List ActivatedOffer)) (orders : List Order)
    (uid : String) (warnBeforeInMillis : Option Int)
    (low : Option (List (Int × String))) : Except Err SweepResult :=
  match uc with
  | none => .ok { expired := [], warnings := [], offers := [], orders := orders,
                  saveCount := 0 }
  | some offers =>
      match sweepLoop consumption now uid (warnBeforeInMillis.getD 0) low offers orders with
      | .error err => .error err
      | .ok r =>
          let expired := r.1
          let offers2 := offers.filter
            (fun o => !(expired.any (fun e2 => o.offerGroup == e2.offerGroup)))
          .ok { expired := expired, warnings := r.2.1, offers := offers2,
                orders := r.2.2,
                saveCount := if expired.length > 0 then 1 else 0 }

/-! ## Theorems -/

/-- A concrete millisecond-based instantiation of the date helpers, used by
witnesses to evaluate the generic theorems on closed inputs. -/
def msDateOps : DateOps Int :=
  { addDays := fun d n => d + n * 86400000
    addMonths := fun d n => d + n * 2592000000
    addYears := fun d n => d + n * 31536000000
    addSeconds := fun d n => d + n * 1000 }

/-- C8: for every start instant, quantity and cycle, the expiry calculator
returns the start unchanged for once; start plus q, 7q or 14q days for
daily, weekly, bi-weekly; start plus q, 3q or 4q months for monthly,
trimester, semester; start plus q years for yearly; start plus
customCycleSeconds times q seconds for custom with a defined nonnegative
customCycleSeconds; and fails with the invalid-cycle error on any other or
missing cycle, or on custom with an undefined or negative
customCycleSeconds. -/
theorem calculateExpiryDate_cases {D : Type} (ops : DateOps D) (s : D)
    (q : Int) (cc : Option Int) :
    (calculateExpiryDate ops ⟨some "once", cc, some q, s⟩ 1 = .ok s) ∧
    (calculateExpiryDate ops ⟨some "daily", cc, some q, s⟩ 1 = .ok (ops.addDays s q)) ∧
    (calculateExpiryDate ops ⟨some "weekly", cc, some q, s⟩ 1 = .ok (ops.addDays s (7 * q))) ∧
    (calculateExpiryDate ops ⟨some "bi-weekly", cc, some q, s⟩ 1 = .ok (ops.addDays s (14 * q))) ∧
    (calculateExpiryDate ops ⟨some "monthly", cc, some q, s⟩ 1 = .ok (ops.addMonths s q)) ∧
    (calculateExpiryDate ops ⟨some "trimester", cc, some q, s⟩ 1 = .ok (ops.addMonths s (3 * q))) ∧
    (calculateExpiryDate ops ⟨some "semester", cc, some q, s⟩ 1 = .ok (ops.addMonths s (4 * q))) ∧
    (calculateExpiryDate ops ⟨some "yearly", cc, some q, s⟩ 1 = .ok (ops.addYears s q)) ∧
    (∀ c : Int, 0 ≤ c →
      calculateExpiryDate ops ⟨some "custom", some c, some q, s⟩ 1 = .ok (ops.addSeconds s (c * q))) ∧
    (∀ c : Int, c < 0 →
      calculateExpiryDate ops ⟨some "custom", some c, some q, s⟩ 1 = .error .invalidCycle) ∧
    (calculateExpiryDate ops ⟨some "custom", none, some q, s⟩ 1 = .error .invalidCycle) ∧
    (calculateExpiryDate ops ⟨none, cc, some q, s⟩ 1 = .error .invalidCycle) ∧
    (∀ c : String,
      c ∉ ["once", "daily", "weekly", "bi-weekly", "monthly", "trimester",
           "semester", "yearly", "custom"] →
      calculateExpiryDate ops ⟨some c, cc, some q, s⟩ 1 = .error .invalidCycle) := by
  refine ⟨?_, ?_, ?_, ?_, ?_, ?_, ?_, ?_, ?_, ?_, ?_, ?_, ?_⟩
  · simp [calculateExpiryDate]
  · simp [calculateExpiryDate]
  · simp [calculateExpiryDate]
  · simp [calculateExpiryDate]
  · simp [calculateExpiryDate]
  · simp [calculateExpiryDate]
  · simp [calculateExpiryDate]
  · simp [calculateExpiryDate]
  · intro c hc
    simp [calculateExpiryDate, hc, mul_comm]
  · intro c hc
    simp [calculateExpiryDate, not_le.mpr hc]
  · simp [calculateExpiryDate]
  · simp [calculateExpiryDate]
  · intro c hc
    simp only [List.mem_cons, List.mem_singleton, not_or] at hc
    obtain ⟨h1, h2, h3, h4, h5, h6, h7, h8, h9, -⟩ := hc
    simp [calculateExpiryDate, h1, h2, h3, h4, h5, h6, h7, h8, h9]

/-- Witness for C8: the weekly case at start 0 and quantity 3, and the
invalid-cycle failure on an unknown cycle string, both concrete. -/
theorem calculateExpiryDate_cases_witness :
    (calculateExpiryDate msDateOps ⟨some "weekly", none, some 3, (0 : Int)⟩ 1 =
      .ok (msDateOps.addDays 0 (7 * 3))) ∧
    (calculateExpiryDate msDateOps ⟨some "fortnight", none, some 3, (0 : Int)⟩ 1 =
      .error .invalidCycle) :=
  ⟨(calculateExpiryDate_cases msDateOps 0 3 none).2.2.1,
   (calculateExpiryDate_cases msDateOps 0 3 none).2.2.2.2.2.2.2.2.2.2.2.2
     "fortnight" (by decide)⟩

/-- The price of a quantity of an offer, price alone when the quantity is
omitted; the property-side reading of the total of the claim. -/
def totalOf (price : Int) : Option Int → Int
  | some q => price * q
  | none => price

/-- Successful total computation: when no quantity exceeds a set limit,
computeTotal yields price times quantity, or the price alone. -/
theorem computeTotal_ok (offer : Offer) (quantity : Option Int)
    (h : ∀ limit q, offer.quantityLimit = some limit → quantity = some q → q ≤ limit) :
    computeTotal quantity offer = .ok (totalOf offer.price quantity) := by
  unfold computeTotal totalOf
  cases hl : offer.quantityLimit with
  | none => cases quantity <;> rfl
  | some limit =>
      cases hq : quantity with
      | none => rfl
      | some q =>
          show (if limit < q then Except.error (Err.invalidOrder "Requested quantity exceeds the limit")
                else Except.ok (offer.price * q)) = _
          rw [if_neg (not_lt.mpr (h limit q hl hq))]

/-- C9: given the offer of the order, createOrder fails with InvalidOrder
exactly when the quantity limit of the offer is set and the requested
quantity exceeds it; otherwise it creates a pending order whose total is
price times quantity, or the price alone when the quantity is omitted. -/
theorem createOrder_quantityLimit (offers : List Offer)
    (offerId userId currency : String) (quantity : Option Int) (offer : Offer)
    (hfind : offers.find? (fun o => o._id == offerId) = some offer) :
    ((∃ limit q, offer.quantityLimit = some limit ∧ quantity = some q ∧ limit < q) →
      createOrder offers offerId userId quantity currency =
        .error (.invalidOrder "Requested quantity exceeds the limit")) ∧
    ((∀ limit q, offer.quantityLimit = some limit → quantity = some q → q ≤ limit) →
      ∃ order, createOrder offers offerId userId quantity currency = .ok order ∧
        order.status = "pending" ∧
        order.total = totalOf offer.price quantity) := by
  constructor
  · rintro ⟨limit, q, hl, hq, hlt⟩
    have ht : computeTotal quantity offer =
        .error (.invalidOrder "Requested quantity exceeds the limit") := by
      unfold computeTotal
      rw [hl, hq]
      show (if limit < q then Except.error (Err.invalidOrder "Requested quantity exceeds the limit")
            else Except.ok (offer.price * q)) = _
      rw [if_pos hlt]
    simp only [createOrder, hfind, ht]
  · intro hle
    have ht := computeTotal_ok offer quantity hle
    simp only [createOrder, hfind, ht]
    exact ⟨_, rfl, rfl, rfl⟩

/-- A concrete offer used by the C9 witness. -/
def c9offer : Offer :=
  { _id := "o1", offerGroup := "g", cycle := some "monthly",
    customCycle := none, tokenCount := some 60, price := 10,
    quantityLimit := some 5, appendDate := false, overridingKey := "",
    weight := 0, combinedItems := [] }

/-- Witness for C9: a concrete offer with limit 5, bought with quantity 2,
yields a pending order with total price times 2. -/
theorem createOrder_quantityLimit_witness :
    ∃ order,
      createOrder [c9offer] "o1" "u" (some 2) "usd" = .ok order ∧
      order.status = "pending" ∧
      order.total = totalOf c9offer.price (some 2) :=
  (createOrder_quantityLimit [c9offer] "o1" "u" "usd" (some 2) c9offer rfl).2
    (by intro limit q hl hq
        simp [c9offer] at hl
        simp at hq
        omega)

/-- C10: tokensConsumed always writes a ledger line of minus count; when no
balance-sheet entry of the group exists the call does not fail but pushes a
fresh entry with tokens minus count and no expiry; when an entry exists its
balance is decremented by count and every other entry is unchanged. -/
theorem tokensConsumed_ledger_and_balance (now : Int)
    (userId offerGroup : String) (count : Int) :
    (∀ offers : List ActivatedOffer,
      (tokensConsumed now offers userId offerGroup count).1 =
        { offerGroup := offerGroup, userId := userId, tokens := some (-count) }) ∧
    (∀ offers : List ActivatedOffer, (∀ o ∈ offers, o.offerGroup ≠ offerGroup) →
      (tokensConsumed now offers userId offerGroup count).2 =
        offers ++ [{ offerGroup := offerGroup, starts := some now,
                     expires := none, tokens := some (-count) }]) ∧
    (∀ pre suf (o : ActivatedOffer), (∀ p ∈ pre, p.offerGroup ≠ offerGroup) →
      o.offerGroup = offerGroup →
      (tokensConsumed now (pre ++ o :: suf) userId offerGroup count).2 =
        pre ++ { o with tokens := some (o.tokens.getD 0 - count) } :: suf) := by
  have hnone : ∀ offers : List ActivatedOffer, (∀ o ∈ offers, o.offerGroup ≠ offerGroup) →
      consumeFirst offerGroup count offers = none := by
    intro offers h
    induction offers with
    | nil => rfl
    | cons o rest ih =>
        simp only [consumeFirst]
        rw [if_neg (by simpa using h o (by simp))]
        rw [ih (fun p hp => h p (by simp [hp]))]
        rfl
  have hsome : ∀ pre suf (o : ActivatedOffer), (∀ p ∈ pre, p.offerGroup ≠ offerGroup) →
      o.offerGroup = offerGroup →
      consumeFirst offerGroup count (pre ++ o :: suf) =
        some (pre ++ { o with tokens := some (o.tokens.getD 0 - count) } :: suf) := by
    intro pre suf o hpre ho
    induction pre with
    | nil => simp [consumeFirst, ho]
    | cons p rest ih =>
        simp only [List.cons_append, consumeFirst, List.append_eq]
        rw [if_neg (by simpa using hpre p (by simp))]
        rw [ih (fun x hx => hpre x (by simp [hx]))]
        rfl
  refine ⟨?_, ?_, ?_⟩
  · intro offers
    unfold tokensConsumed
    cases h : consumeFirst offerGroup count offers <;> simp [h]
  · intro offers h
    unfold tokensConsumed
    rw [hnone offers h]
  · intro pre suf o hpre ho
    unfold tokensConsumed
    rw [hsome pre suf o hpre ho]

/-- Witness for C10: a concrete sheet holding a data entry only; consuming
5 call tokens pushes a fresh calls entry at minus 5, and consuming from the
data entry decrements it from 3 to minus 2 leaving the calls entry of the
sheet alone. -/
theorem tokensConsumed_ledger_and_balance_witness :
    ((tokensConsumed 1000 [⟨"data", some 0, some 99, some 3⟩] "u" "calls" 5).2 =
      [⟨"data", some 0, some 99, some 3⟩] ++
        [{ offerGroup := "calls", starts := some 1000, expires := none,
           tokens := some (-5) }]) ∧
    ((tokensConsumed 1000 ([] ++ ⟨"data", some 0, some 99, some 3⟩ :: []) "u" "data" 5).2 =
      [] ++ { offerGroup := "data", starts := some 0, expires := some 99,
              tokens := some ((some (3 : Int)).getD 0 - 5) } :: []) :=
  ⟨(tokensConsumed_ledger_and_balance 1000 "u" "calls" 5).2.1 _ (by decide),
   (tokensConsumed_ledger_and_balance 1000 "u" "data" 5).2.2 [] []
     ⟨"data", some 0, some 99, some 3⟩ (by simp) rfl⟩

/-! ### C2: the start-date policy -/

theorem foldl_max_ub (l : List Order) (init m : Int) (h0 : init ≤ m)
    (h : ∀ o ∈ l, expiresValue o ≤ m) :
    l.foldl (fun acc x => max acc (expiresValue x)) init ≤ m := by
  induction l generalizing init with
  | nil => exact h0
  | cons a t ih =>
      exact ih _ (max_le h0 (h a (by simp))) (fun o ho => h o (by simp [ho]))

theorem le_foldl_max (l : List Order) (init : Int) :
    init ≤ l.foldl (fun acc x => max acc (expiresValue x)) init := by
  induction l generalizing init with
  | nil => exact le_refl _
  | cons a t ih => exact le_trans (le_max_left _ _) (ih _)

theorem le_foldl_max_mem (l : List Order) (init : Int) (o : Order) (ho : o ∈ l) :
    expiresValue o ≤ l.foldl (fun acc x => max acc (expiresValue x)) init := by
  induction l generalizing init with
  | nil => cases ho
  | cons a t ih =>
      rcases List.mem_cons.mp ho with h | h
      · subst h
        exact le_trans (le_max_right _ _) (le_foldl_max _ _)
      · first
        | exact ih h _
        | exact ih _ h

/-- The greatest expiry of a nonempty order list is computed by maxExpires,
the head of the descending sort of computeStartDate. -/
theorem maxExpires_eq (l : List Order) (m : Int)
    (hmem : ∃ o ∈ l, expiresValue o = m) (hub : ∀ o ∈ l, expiresValue o ≤ m) :
    maxExpires l = m := by
  obtain ⟨o, ho, hom⟩ := hmem
  cases l with
  | nil => cases ho
  | cons a t =>
      refine le_antisymm ?_ ?_
      · exact foldl_max_ub t _ m (hub a (by simp)) (fun x hx => hub x (by simp [hx]))
      · rcases List.mem_cons.mp ho with h | h
        · subst h
          exact hom ▸ le_foldl_max t _
        · exact hom ▸ le_foldl_max_mem t _ o h

/-- C2: start-date policy of an order being marked paid. An explicit start
strictly in the past fails with InvalidOrder; an explicit future-or-now
start is accepted unchanged; without an explicit start, a missing offer or
appendDate false gives now; appendDate true gives now when no prior paid
order of the group has a recorded expiry, and otherwise the latest such
expiry, replaced by now when that expiry is earlier than now. -/
theorem computeStartDate_policy (now : Int) (offersStore : List Offer)
    (ordersStore : List Order) (spec : OrderSpec) :
    (∀ s, spec.starts = some s → s < now →
      computeStartDate now offersStore ordersStore spec =
        .error (.invalidOrder "Explicit start date has passed")) ∧
    (∀ s, spec.starts = some s → now ≤ s →
      computeStartDate now offersStore ordersStore spec = .ok s) ∧
    (spec.starts = none →
      (∀ o, offersStore.find? (fun o2 => o2._id == spec.offerId) = some o →
        o.appendDate = false) →
      computeStartDate now offersStore ordersStore spec = .ok now) ∧
    (∀ offer, spec.starts = none →
      offersStore.find? (fun o => o._id == spec.offerId) = some offer →
      offer.appendDate = true →
      ordersStore.filter (isPriorPaidOrder spec) = [] →
      computeStartDate now offersStore ordersStore spec = .ok now) ∧
    (∀ offer m, spec.starts = none →
      offersStore.find? (fun o => o._id == spec.offerId) = some offer →
      offer.appendDate = true →
      (∃ o ∈ ordersStore.filter (isPriorPaidOrder spec), o.expires = some m) →
      (∀ o ∈ ordersStore.filter (isPriorPaidOrder spec), expiresValue o ≤ m) →
      computeStartDate now offersStore ordersStore spec =
        .ok (if m < now then now else m)) := by
  refine ⟨?_, ?_, ?_, ?_, ?_⟩
  · intro s hs hlt
    simp [computeStartDate, hs, hlt]
  · intro s hs hge
    simp [computeStartDate, hs, not_lt.mpr hge]
  · intro hs happ
    unfold computeStartDate
    rw [hs]
    cases hfind : offersStore.find? (fun o2 => o2._id == spec.offerId) with
    | none => rfl
    | some o => simp [happ o hfind]
  · intro offer hs hfind happ hempty
    unfold computeStartDate
    rw [hs, hfind]
    simp [happ, hempty]
  · intro offer m hs hfind happ hmem hub
    have hmax : maxExpires (ordersStore.filter (isPriorPaidOrder spec)) = m := by
      apply maxExpires_eq _ m _ hub
      obtain ⟨o, ho, hom⟩ := hmem
      exact ⟨o, ho, by simp [expiresValue, hom]⟩
    have hne : (ordersStore.filter (isPriorPaidOrder spec)).isEmpty = false := by
      obtain ⟨o, ho, -⟩ := hmem
      cases hl : ordersStore.filter (isPriorPaidOrder spec) with
      | nil => rw [hl] at ho; cases ho
      | cons a t => rfl
    unfold computeStartDate
    rw [hs, hfind]
    simp [happ, hne, hmax]

/-- A concrete append-dated offer for the C2 witness. -/
def c2offer : Offer :=
  { _id := "of", offerGroup := "G", cycle := some "monthly",
    customCycle := none, tokenCount := none, price := 0,
    quantityLimit := none, appendDate := true, overridingKey := "",
    weight := 0, combinedItems := [] }

/-- A concrete prior paid order expiring at 100 for the C2 witness. -/
def c2orderA : Order :=
  { _id := "a", userId := "u", offerGroup := "G", offerId := "of",
    parentId := none, quantity := none, total := 0, status := "paid",
    starts := some 0, expires := some 100, tokenCount := none,
    cycle := none, customCycle := none, currency := "usd", combinedItems := [] }

/-- A concrete prior paid order expiring at 200 for the C2 witness. -/
def c2orderB : Order :=
  { _id := "b", userId := "u", offerGroup := "G", offerId := "of",
    parentId := none, quantity := none, total := 0, status := "paid",
    starts := some 0, expires := some 200, tokenCount := none,
    cycle := none, customCycle := none, currency := "usd", combinedItems := [] }

/-- The concrete spec of the order being paid in the C2 witness. -/
def c2spec : OrderSpec :=
  { offerGroup := "G", offerId := "of", userId := some "u", quantity := none,
    tokenCount := none, cycle := none, customCycle := none,
    starts := none, expires := none }

/-- Witness for C2: appendDate true with prior paid orders expiring at 100
and 200 against now 50 gives a start of 200; the concrete offer and orders
discharge every hypothesis. -/
theorem computeStartDate_policy_witness :
    computeStartDate 50 [c2offer] [c2orderA, c2orderB] c2spec =
      .ok (if (200 : Int) < 50 then 50 else 200) := by
  refine (computeStartDate_policy 50 [c2offer] [c2orderA, c2orderB] c2spec).2.2.2.2
    c2offer 200 rfl (by decide) rfl ?_ ?_
  · exact ⟨c2orderB, by decide, by decide⟩
  · decide

/-! ### C1: balance application -/

/-- C1 counterexample: the claim states that applying a fresh activation
onto an existing entry of the group adds exactly the newly granted tokens
to the running balance. At the concrete sheet holding the group g with a
balance of 0, granting 7 tokens leaves the balance at 0 instead of 0 plus
7: the source only adds when the existing balance is truthy. -/
theorem appendOrPushActiveOffer_zero_balance_counterexample :
    (Part000.appendOrPushActiveOffer
        [{ offerGroup := "g", starts := some 1, expires := some 2, tokens := some 0 }]
        { offerGroup := "g", starts := some 5, expires := some 9, tokens := some 7 }).2.tokens
      ≠ some (0 + 7) := by decide

/-- The token-update rule of appendOrPushActiveOffer in arithmetic terms:
the grant lands only when both the existing balance and the grant are
nonzero after reading an absent value as 0. -/
theorem appendOrPushTokens_eq (t u : Option Int) :
    (if otruthy t then (if otruthy u then some (t.getD 0 + u.getD 0) else t) else t) =
    (if t.getD 0 ≠ 0 ∧ u.getD 0 ≠ 0 then some (t.getD 0 + u.getD 0) else t) := by
  cases t with
  | none => cases u <;> simp [otruthy]
  | some v =>
      cases u with
      | none => simp [otruthy]
      | some w => by_cases hv : v = 0 <;> by_cases hw : w = 0 <;> simp [otruthy, hv, hw]

/-- C1 amended: when applying a freshly computed activation, an existing
entry of the offerGroup gets both starts and expires overwritten with the
fresh values and, only when both its previous balance and the grant are
nonzero, the grant added to its balance, the balance being left unchanged
otherwise; when no entry of the group exists the fresh record with its
four fields is appended. -/
theorem appendOrPushActiveOffer_behavior (offers : List ActivatedOffer)
    (a : ActivatedOffer) :
    ((∀ o ∈ offers, o.offerGroup ≠ a.offerGroup) →
      Part000.appendOrPushActiveOffer offers a = (offers ++ [a], a)) ∧
    (∀ pre ex suf, offers = pre ++ ex :: suf →
      (∀ p ∈ pre, p.offerGroup ≠ a.offerGroup) →
      ex.offerGroup = a.offerGroup →
      Part000.appendOrPushActiveOffer offers a =
        (pre ++ { ex with
                  starts := a.starts
                  expires := a.expires
                  tokens := if ex.tokens.getD 0 ≠ 0 ∧ a.tokens.getD 0 ≠ 0
                            then some (ex.tokens.getD 0 + a.tokens.getD 0)
                            else ex.tokens } :: suf,
         { ex with
           starts := a.starts
           expires := a.expires
           tokens := if ex.tokens.getD 0 ≠ 0 ∧ a.tokens.getD 0 ≠ 0
                     then some (ex.tokens.getD 0 + a.tokens.getD 0)
                     else ex.tokens })) := by
  constructor
  · intro h
    induction offers with
    | nil => rfl
    | cons o rest ih =>
        simp only [Part000.appendOrPushActiveOffer]
        rw [if_neg (by simpa using h o (by simp))]
        rw [ih (fun p hp => h p (by simp [hp]))]
        rfl
  · intro pre ex suf hoffers hpre hex
    subst hoffers
    induction pre with
    | nil =>
        simp only [List.nil_append, Part000.appendOrPushActiveOffer]
        rw [if_pos (by simp [hex])]
        rw [appendOrPushTokens_eq]
    | cons p rest ih =>
        simp only [List.cons_append, Part000.appendOrPushActiveOffer, List.append_eq]
        rw [if_neg (by simpa using hpre p (by simp))]
        rw [ih (fun x hx => hpre x (by simp [hx]))]

/-- Witness for C1 amended: a sheet holding the group g at balance 5;
granting 7 overwrites starts and expires and yields balance 12. -/
theorem appendOrPushActiveOffer_behavior_witness :
    Part000.appendOrPushActiveOffer
        [{ offerGroup := "g", starts := some 1, expires := some 2, tokens := some 5 }]
        { offerGroup := "g", starts := some 5, expires := some 9, tokens := some 7 } =
      ([] ++ { offerGroup := "g", starts := some 5, expires := some 9,
               tokens := if (some (5 : Int)).getD 0 ≠ 0 ∧ (some (7 : Int)).getD 0 ≠ 0
                         then some ((some (5 : Int)).getD 0 + (some (7 : Int)).getD 0)
                         else some 5 } :: [],
       { offerGroup := "g", starts := some 5, expires := some 9,
         tokens := if (some (5 : Int)).getD 0 ≠ 0 ∧ (some (7 : Int)).getD 0 ≠ 0
                   then some ((some (5 : Int)).getD 0 + (some (7 : Int)).getD 0)
                   else some 5 }) :=
  (appendOrPushActiveOffer_behavior
      [{ offerGroup := "g", starts := some 1, expires := some 2, tokens := some 5 }]
      { offerGroup := "g", starts := some 5, expires := some 9, tokens := some 7 }).2
    [] { offerGroup := "g", starts := some 1, expires := some 2, tokens := some 5 } []
    rfl (by simp) rfl

/-! ### C4: start and expiry of bundled sub-offers (part_000 revision) -/

/-- The entry returned by appendOrPushActiveOffer always carries the group,
starts and expires of the fresh activation, and belongs to the resulting
balance sheet. -/
theorem appendOrPush_result (offers : List ActivatedOffer) (a : ActivatedOffer) :
    (Part000.appendOrPushActiveOffer offers a).2.offerGroup = a.offerGroup ∧
    (Part000.appendOrPushActiveOffer offers a).2.starts = a.starts ∧
    (Part000.appendOrPushActiveOffer offers a).2.expires = a.expires ∧
    (Part000.appendOrPushActiveOffer offers a).2 ∈ (Part000.appendOrPushActiveOffer offers a).1 := by
  induction offers with
  | nil => simp [Part000.appendOrPushActiveOffer]
  | cons o rest ih =>
      by_cases h : (o.offerGroup == a.offerGroup) = true
      · have hg : o.offerGroup = a.offerGroup := by simpa using h
        simp [Part000.appendOrPushActiveOffer, h, hg]
      · simp only [Part000.appendOrPushActiveOffer, if_neg h]
        exact ⟨ih.1, ih.2.1, ih.2.2.1, List.mem_cons_of_mem o ih.2.2.2⟩

/-- The order spec a bundled item is cast to in the part_000 revision of
updateNestedItemDateAndTokens, with the offer tokenCount taken over when
the item tokenCount is falsy and the offer cycle as fallback. -/
def nestedSpec (offer : Offer) (rootOrder : Order) (item : CombinedOffer) : OrderSpec :=
  { offerGroup := item.offerGroup, offerId := item.offerId,
    userId := some rootOrder.userId, quantity := item.quantity,
    tokenCount := if !otruthy item.tokenCount && otruthy offer.tokenCount then
        offer.tokenCount
      else item.tokenCount,
    cycle := match item.cycle with | some c => some c | none => offer.cycle,
    customCycle := item.customCycle, starts := item.starts, expires := none }

/-- C4: while applying a paid root order, a bundled sub-offer whose offer
sets appendDate gets its start from the start-date policy run independently
for its own offerGroup and its expiry from that start; otherwise its
ActivatedOffer inherits the starts and expires of the root offerGroup
entry. -/
theorem updateNestedItemDateAndTokens_dates (ops : DateOps Int) (now : Int)
    (offersStore : List Offer) (ordersStore : List Order) (offer : Offer)
    (rootOrder : Order) (offers : List ActivatedOffer) (item : CombinedOffer) :
    (∀ s x r, offer.appendDate = true →
      computeStartDate now offersStore ordersStore (nestedSpec offer rootOrder item) = .ok s →
      calculateExpiryDate ops
        { cycle := (nestedSpec offer rootOrder item).cycle,
          customCycle := item.customCycle, quantity := item.quantity, starts := s }
        (rootOrder.quantity.getD 1) = .ok x →
      Part000.updateNestedItemDateAndTokens ops now offersStore ordersStore offer
        rootOrder offers item = .ok r →
      r.2.offerGroup = item.offerGroup ∧ r.2.starts = some s ∧
        r.2.expires = some x ∧ r.2 ∈ r.1) ∧
    (∀ rootActive r, offer.appendDate = false →
      offers.find? (fun i => i.offerGroup == rootOrder.offerGroup) = some rootActive →
      Part000.updateNestedItemDateAndTokens ops now offersStore ordersStore offer
        rootOrder offers item = .ok r →
      r.2.offerGroup = item.offerGroup ∧ r.2.starts = rootActive.starts ∧
        r.2.expires = rootActive.expires ∧ r.2 ∈ r.1) := by
  constructor
  · intro s x r happ hstart hexp hr
    unfold Part000.updateNestedItemDateAndTokens at hr
    rw [happ] at hr
    simp only [if_true] at hr
    rw [show (nestedSpec offer rootOrder item) =
        { offerGroup := item.offerGroup, offerId := item.offerId,
          userId := some rootOrder.userId, quantity := item.quantity,
          tokenCount := if !otruthy item.tokenCount && otruthy offer.tokenCount then
              offer.tokenCount
            else item.tokenCount,
          cycle := match item.cycle with | some c => some c | none => offer.cycle,
          customCycle := item.customCycle, starts := item.starts, expires := none }
      from rfl] at hstart
    rw [hstart] at hr
    rw [show (nestedSpec offer rootOrder item).cycle =
        (match item.cycle with | some c => some c | none => offer.cycle) from rfl] at hexp
    simp only [hexp] at hr
    have h2 := Except.ok.inj hr
    subst h2
    exact appendOrPush_result _ _
  · intro rootActive r happ hfind hr
    unfold Part000.updateNestedItemDateAndTokens at hr
    rw [happ] at hr
    simp only [Bool.false_eq_true, if_false, hfind] at hr
    have h2 := Except.ok.inj hr
    subst h2
    exact appendOrPush_result _ _

/-- A concrete sub-offer without appendDate for the C4 witness. -/
def c4offer : Offer :=
  { _id := "sub", offerGroup := "calls", cycle := some "monthly",
    customCycle := none, tokenCount := some 60, price := 0,
    quantityLimit := none, appendDate := false, overridingKey := "",
    weight := 0, combinedItems := [] }

/-- A concrete bundled item pointing at the sub-offer for the C4 witness. -/
def c4item : CombinedOffer :=
  { offerId := "sub", offerGroup := "calls", quantity := some 20,
    cycle := none, customCycle := none, tokenCount := none, starts := none }

/-- A concrete paid root order of quantity 2 for the C4 witness. -/
def c4root : Order :=
  { _id := "root1", userId := "u", offerGroup := "root", offerId := "rof",
    parentId := none, quantity := some 2, total := 0, status := "paid",
    starts := some 0, expires := some 1000, tokenCount := some 180,
    cycle := some "monthly", customCycle := none, currency := "usd",
    combinedItems := [] }

/-- The balance-sheet entry of the root offerGroup for the C4 witness. -/
def c4rootEntry : ActivatedOffer :=
  { offerGroup := "root", starts := some 0, expires := some 1000, tokens := some 360 }

/-- The concrete outcome of the C4 witness run. -/
def c4r : List ActivatedOffer × ActivatedOffer :=
  ([c4rootEntry,
    { offerGroup := "calls", starts := some 0, expires := some 1000, tokens := some 2400 }],
   { offerGroup := "calls", starts := some 0, expires := some 1000, tokens := some 2400 })

/-- Witness for C4: without its own appendDate, the bundled calls entry
inherits starts 0 and expires 1000 from the root entry. -/
theorem updateNestedItemDateAndTokens_dates_witness :
    c4r.2.offerGroup = c4item.offerGroup ∧ c4r.2.starts = c4rootEntry.starts ∧
    c4r.2.expires = c4rootEntry.expires ∧ c4r.2 ∈ c4r.1 :=
  (updateNestedItemDateAndTokens_dates msDateOps 0 [] [] c4offer c4root
      [c4rootEntry] c4item).2 c4rootEntry c4r rfl rfl rfl

/-! ### C3: token grants of bundled items (BaseService.ts revision) -/

/-- The pre-existing calls entry of the C3 counterexample, holding a
balance of 100. -/
def c3callsEntry : ActivatedOffer :=
  { offerGroup := "calls", starts := some 0, expires := some 500, tokens := some 100 }

/-- C3 counterexample: the claim grants exactly 60 tokens times item
quantity 20 times root quantity 2, that is 2400, to the calls group, with
a child order and a ledger line of 2400, regardless of any prior balance.
On a sheet already holding calls at balance 100, the run instead adds
4800 (the grant scaled by the root quantity twice) and the child order and
ledger line record the whole resulting balance 4900, not 2400. -/
theorem updateNestedItemAsPaid_scaling_counterexample :
    ((updateNestedItemAsPaid msDateOps 0 [c4offer] [] c4item
        [c4rootEntry, c3callsEntry] c4root "u").toOption.map
      (fun r => (r.childOrder.tokenCount, r.ledgerEntry.tokens)) =
      some (some 4900, some 4900)) ∧
    (4900 : Int) ≠ 60 * 20 * 2 := by decide

theorem extendFirstGroup_none (g : String) (f : ActivatedOffer → ActivatedOffer) :
    ∀ offers : List ActivatedOffer, (∀ o ∈ offers, o.offerGroup ≠ g) →
      extendFirstGroup g f offers = none := by
  intro offers h
  induction offers with
  | nil => rfl
  | cons o rest ih =>
      simp only [extendFirstGroup]
      rw [if_neg (by simpa using h o (by simp))]
      rw [ih (fun p hp => h p (by simp [hp]))]
      rfl

theorem extendFirstGroup_found (g : String) (f : ActivatedOffer → ActivatedOffer)
    (pre suf : List ActivatedOffer) (ex : ActivatedOffer)
    (hpre : ∀ p ∈ pre, p.offerGroup ≠ g) (hex : ex.offerGroup = g) :
    extendFirstGroup g f (pre ++ ex :: suf) = some (pre ++ f ex :: suf, f ex) := by
  induction pre with
  | nil =>
      simp only [List.nil_append, extendFirstGroup]
      rw [if_pos (by simp [hex])]
  | cons p rest ih =>
      simp only [List.cons_append, extendFirstGroup, List.append_eq]
      rw [if_neg (by simpa using hpre p (by simp))]
      rw [ih (fun x hx => hpre x (by simp [hx]))]
      rfl

theorem find?_group_append (g : String) (l1 l2 : List ActivatedOffer)
    (h : ∀ o ∈ l1, o.offerGroup ≠ g) :
    (l1 ++ l2).find? (fun o => o.offerGroup == g) =
      l2.find? (fun o => o.offerGroup == g) := by
  induction l1 with
  | nil => rfl
  | cons o rest ih =>
      simp only [List.cons_append, List.find?]
      rw [show (o.offerGroup == g) = false by simpa using h o (by simp)]
      exact ih (fun p hp => h p (by simp [hp]))

/-- Shape of the balance sheet after updateOfferGroupTokens for a strictly
positive token holder: a fresh group receives quantity times tokenCount
times item quantity; an existing group keeps its starts and is incremented
by that amount scaled by quantity once more. -/
theorem updateOfferGroupTokens_result (g : String) (iq T q : Int)
    (offers : List ActivatedOffer) (E S : Option Int)
    (hT : 0 < T) (hq : 0 < q) (hiq : 0 < iq) :
    ((∀ o ∈ offers, o.offerGroup ≠ g) →
      (updateOfferGroupTokens { offerGroup := g, quantity := some iq, tokenCount := some T }
          offers E S q).1 =
        offers ++ [{ offerGroup := g, starts := S, expires := E, tokens := some (q * T * iq) }]) ∧
    (∀ pre ex suf, offers = pre ++ ex :: suf →
      (∀ p ∈ pre, p.offerGroup ≠ g) → ex.offerGroup = g →
      (updateOfferGroupTokens { offerGroup := g, quantity := some iq, tokenCount := some T }
          offers E S q).1 =
        pre ++ { ex with
                 expires := E
                 tokens := some (ex.tokens.getD 0 + q * T * iq * q) } :: suf) := by
  have horone : orOne iq = iq := by
    simp only [orOne]
    rw [if_neg (by simpa using hiq.ne')]
  have hpos : 0 < q * T * iq := by positivity
  have hguard : (match (some T : Option Int) with
      | some t => decide (0 < t) | none => false) = true := by simp [hT]
  constructor
  · intro h
    unfold updateOfferGroupTokens
    rw [hguard]
    simp only [if_true, Option.getD, orOneO, horone]
    rw [extendFirstGroup_none g _ offers h]
  · intro pre ex suf hoffers hpre hex
    subst hoffers
    unfold updateOfferGroupTokens
    rw [hguard]
    simp only [if_true, Option.getD, orOneO, horone]
    rw [extendFirstGroup_found g _ pre suf ex hpre hex]
    simp only [Option.map]
    congr 2
    simp only [otruthy]
    rw [if_pos (by simpa using hpos.ne')]

/-- Both branches of the BaseService.ts revision of
updateNestedItemDateAndTokens funnel the balance sheet through
updateOfferGroupTokens with the item holder and the root order quantity,
for some expiry and start values. -/
theorem updateNestedItemDateAndTokens_offers (ops : DateOps Int) (now : Int)
    (offersStore : List Offer) (ordersStore : List Order) (offer : Offer)
    (rootOrder : Order) (offers : List ActivatedOffer) (item : CombinedOffer)
    (offers2 : List ActivatedOffer)
    (hr : updateNestedItemDateAndTokens ops now offersStore ordersStore offer
      rootOrder offers item = .ok offers2) :
    ∃ E S, offers2 = (updateOfferGroupTokens
      { offerGroup := item.offerGroup, quantity := item.quantity,
        tokenCount := if !otruthy item.tokenCount && otruthy offer.tokenCount then
            offer.tokenCount
          else item.tokenCount }
      offers E S (rootOrder.quantity.getD 1)).1 := by
  unfold updateNestedItemDateAndTokens at hr
  by_cases hc : struthy (if !otruthy item.tokenCount && otruthy offer.tokenCount then
      { offerGroup := item.offerGroup, offerId := item.offerId, userId := none,
        quantity := item.quantity, tokenCount := offer.tokenCount,
        cycle := item.cycle, customCycle := item.customCycle,
        starts := item.starts, expires := (none : Option Int) }
    else
      { offerGroup := item.offerGroup, offerId := item.offerId, userId := none,
        quantity := item.quantity, tokenCount := item.tokenCount,
        cycle := item.cycle, customCycle := item.customCycle,
        starts := item.starts, expires := (none : Option Int) } : OrderSpec).cycle = true
  · rw [if_pos hc] at hr
    unfold updateOrderDateAndTokens at hr
    cases hs : computeStartDate now offersStore ordersStore
        (if !otruthy item.tokenCount && otruthy offer.tokenCount then
          { offerGroup := item.offerGroup, offerId := item.offerId, userId := none,
            quantity := item.quantity, tokenCount := offer.tokenCount,
            cycle := item.cycle, customCycle := item.customCycle,
            starts := item.starts, expires := (none : Option Int) }
        else
          { offerGroup := item.offerGroup, offerId := item.offerId, userId := none,
            quantity := item.quantity, tokenCount := item.tokenCount,
            cycle := item.cycle, customCycle := item.customCycle,
            starts := item.starts, expires := (none : Option Int) }) with
    | error e =>
        simp only [hs] at hr
        exact Except.noConfusion hr
    | ok s =>
        simp only [hs] at hr
        cases hx : calculateExpiryDate ops
            { cycle := (if !otruthy item.tokenCount && otruthy offer.tokenCount then
                { offerGroup := item.offerGroup, offerId := item.offerId, userId := none,
                  quantity := item.quantity, tokenCount := offer.tokenCount,
                  cycle := item.cycle, customCycle := item.customCycle,
                  starts := item.starts, expires := (none : Option Int) }
              else
                { offerGroup := item.offerGroup, offerId := item.offerId, userId := none,
                  quantity := item.quantity, tokenCount := item.tokenCount,
                  cycle := item.cycle, customCycle := item.customCycle,
                  starts := item.starts, expires := (none : Option Int) } : OrderSpec).cycle,
              customCycle := (if !otruthy item.tokenCount && otruthy offer.tokenCount then
                { offerGroup := item.offerGroup, offerId := item.offerId, userId := none,
                  quantity := item.quantity, tokenCount := offer.tokenCount,
                  cycle := item.cycle, customCycle := item.customCycle,
                  starts := item.starts, expires := (none : Option Int) }
              else
                { offerGroup := item.offerGroup, offerId := item.offerId, userId := none,
                  quantity := item.quantity, tokenCount := item.tokenCount,
                  cycle := item.cycle, customCycle := item.customCycle,
                  starts := item.starts, expires := (none : Option Int) } : OrderSpec).customCycle,
              quantity := (if !otruthy item.tokenCount && otruthy offer.tokenCount then
                { offerGroup := item.offerGroup, offerId := item.offerId, userId := none,
                  quantity := item.quantity, tokenCount := offer.tokenCount,
                  cycle := item.cycle, customCycle := item.customCycle,
                  starts := item.starts, expires := (none : Option Int) }
              else
                { offerGroup := item.offerGroup, offerId := item.offerId, userId := none,
                  quantity := item.quantity, tokenCount := item.tokenCount,
                  cycle := item.cycle, customCycle := item.customCycle,
                  starts := item.starts, expires := (none : Option Int) } : OrderSpec).quantity,
              starts := s }
            (rootOrder.quantity.getD 1) with
        | error e =>
            simp only [hx] at hr
            exact Except.noConfusion hr
        | ok x =>
            simp only [hx] at hr
            refine ⟨some x, some s, ?_⟩
            have h2 := Except.ok.inj hr
            subst h2
            by_cases hcopy : (!otruthy item.tokenCount && otruthy offer.tokenCount) = true <;>
              simp only [hcopy, if_true, Bool.false_eq_true, if_false]
  · rw [if_neg hc] at hr
    cases hf : offers.find? (fun i => i.offerGroup == rootOrder.offerGroup) with
    | none =>
        simp only [hf] at hr
        exact Except.noConfusion hr
    | some mainGroup =>
        simp only [hf] at hr
        refine ⟨mainGroup.expires, mainGroup.starts, ?_⟩
        have h2 := Except.ok.inj hr
        subst h2
        by_cases hcopy : (!otruthy item.tokenCount && otruthy offer.tokenCount) = true <;>
          simp only [hcopy, if_true, Bool.false_eq_true, if_false]

/-- C3 amended: processing a paid root order of quantity rq against a
bundled item of quantity iq whose sub-offer grants T tokens per unit
persists a child order that is already paid, linked to the root order and
of total 0. When the balance sheet held no entry of the item offerGroup,
the grant is exactly T times iq times rq and the child order tokenCount
and the ledger line both record that grant. When an entry already existed,
the balance instead grows by that grant scaled by rq once more, and the
child order tokenCount and the ledger line record the whole resulting
balance rather than the grant. -/
theorem updateNestedItemAsPaid_tokens
    (ops : DateOps Int) (now : Int) (offersStore : List Offer) (ordersStore : List Order)
    (item : CombinedOffer) (offers : List ActivatedOffer) (rootOrder : Order)
    (uid : String) (offer : Offer) (rq iq T : Int) (r : NestedPaidResult)
    (hfind : offersStore.find? (fun o => o._id == item.offerId) = some offer)
    (hitem : item.tokenCount = none)
    (hT : offer.tokenCount = some T) (hTpos : 0 < T)
    (hrq : rootOrder.quantity = some rq) (hrqpos : 0 < rq)
    (hiq : item.quantity = some iq) (hiqpos : 0 < iq)
    (hr : updateNestedItemAsPaid ops now offersStore ordersStore item offers
      rootOrder uid = .ok r) :
    r.childOrder.status = "paid" ∧
    r.childOrder.parentId = some rootOrder._id ∧
    r.childOrder.total = 0 ∧
    ((∀ o ∈ offers, o.offerGroup ≠ item.offerGroup) →
      r.childOrder.tokenCount = some (T * iq * rq) ∧
      r.ledgerEntry.tokens = some (T * iq * rq)) ∧
    (∀ pre ex suf, offers = pre ++ ex :: suf →
      (∀ p ∈ pre, p.offerGroup ≠ item.offerGroup) →
      ex.offerGroup = item.offerGroup →
      r.childOrder.tokenCount = some (ex.tokens.getD 0 + T * iq * rq * rq) ∧
      r.ledgerEntry.tokens = some (ex.tokens.getD 0 + T * iq * rq * rq)) := by
  unfold updateNestedItemAsPaid at hr
  simp only [hfind] at hr
  cases hn : updateNestedItemDateAndTokens ops now offersStore ordersStore offer
      rootOrder offers item with
  | error e =>
      simp only [hn] at hr
      exact Except.noConfusion hr
  | ok offers2 =>
      simp only [hn] at hr
      have h2 := Except.ok.inj hr
      subst h2
      obtain ⟨E, S, hoff2⟩ := updateNestedItemDateAndTokens_offers ops now offersStore
        ordersStore offer rootOrder offers item offers2 hn
      have hcopy : (if !otruthy item.tokenCount && otruthy offer.tokenCount then
          offer.tokenCount else item.tokenCount) = some T := by
        rw [hitem, hT]
        simp [otruthy, hTpos.ne']
      have hqd : rootOrder.quantity.getD 1 = rq := by rw [hrq]; rfl
      rw [hcopy, hqd, hiq] at hoff2
      obtain ⟨habs, hexist⟩ := updateOfferGroupTokens_result item.offerGroup iq T rq
        offers E S hTpos hrqpos hiqpos
      refine ⟨rfl, rfl, rfl, ?_, ?_⟩
      · intro h
        have hlist : offers2 = offers ++
            [{ offerGroup := item.offerGroup, starts := S, expires := E,
               tokens := some (rq * T * iq) }] := hoff2.trans (habs h)
        have hfound : offers2.find? (fun o => o.offerGroup == item.offerGroup) =
            some { offerGroup := item.offerGroup, starts := S, expires := E,
                   tokens := some (rq * T * iq) } := by
          rw [hlist, find?_group_append item.offerGroup offers _ h]
          simp [List.find?]
        constructor
        · show ((offers2.find? (fun o => o.offerGroup == item.offerGroup)).bind
            (fun c => c.tokens)) = some (T * iq * rq)
          rw [hfound]
          exact congrArg some (by ring)
        · show ((offers2.find? (fun o => o.offerGroup == item.offerGroup)).bind
            (fun c => c.tokens)) = some (T * iq * rq)
          rw [hfound]
          exact congrArg some (by ring)
      · intro pre ex suf hoffers hpre hex
        have hlist : offers2 = pre ++
            { ex with
              expires := E
              tokens := some (ex.tokens.getD 0 + rq * T * iq * rq) } :: suf :=
          hoff2.trans (hexist pre ex suf hoffers hpre hex)
        have hfound : offers2.find? (fun o => o.offerGroup == item.offerGroup) =
            some { ex with
                   expires := E
                   tokens := some (ex.tokens.getD 0 + rq * T * iq * rq) } := by
          rw [hlist, find?_group_append item.offerGroup pre _ hpre]
          simp [List.find?, hex]
        constructor
        · show ((offers2.find? (fun o => o.offerGroup == item.offerGroup)).bind
            (fun c => c.tokens)) = some (ex.tokens.getD 0 + T * iq * rq * rq)
          rw [hfound]
          exact congrArg some (by ring_nf)
        · show ((offers2.find? (fun o => o.offerGroup == item.offerGroup)).bind
            (fun c => c.tokens)) = some (ex.tokens.getD 0 + T * iq * rq * rq)
          rw [hfound]
          exact congrArg some (by ring_nf)

/-- The concrete outcome of the C3 witness run: the 60 tokens, quantity
20, root quantity 2 bundle applied to a sheet without a calls entry. -/
def c3result : NestedPaidResult :=
  { offers := [c4rootEntry,
      { offerGroup := "calls", starts := some 0, expires := some 1000,
        tokens := some 2400 }]
    childOrder :=
      { _id := "created", userId := "u", offerGroup := "calls", offerId := "sub",
        parentId := some "root1", quantity := some 40, total := 0,
        status := "paid", starts := some 0, expires := some 1000,
        tokenCount := some 2400, cycle := some "monthly", customCycle := none,
        currency := "usd", combinedItems := [] }
    ledgerEntry := { offerGroup := "calls", userId := "u", tokens := some 2400 } }

/-- Witness for C3 amended: on the sheet without a calls entry the child
order is paid, linked to the root order, free, and both the child order
tokenCount and the ledger line carry the grant 60 times 20 times 2. -/
theorem updateNestedItemAsPaid_tokens_witness :
    c3result.childOrder.status = "paid" ∧
    c3result.childOrder.parentId = some c4root._id ∧
    c3result.childOrder.total = 0 ∧
    (c3result.childOrder.tokenCount = some (60 * 20 * 2) ∧
     c3result.ledgerEntry.tokens = some (60 * 20 * 2)) :=
  have h := updateNestedItemAsPaid_tokens msDateOps 0 [c4offer] [] c4item
    [c4rootEntry] c4root "u" c4offer 2 20 60 c3result rfl rfl rfl (by decide) rfl
    (by decide) rfl (by decide) rfl
  ⟨h.1, h.2.1, h.2.2.1, by
    have h4 := h.2.2.2.1 (by decide)
    exact ⟨by simpa using h4.1, by simpa using h4.2⟩⟩

/-! ### C6: idempotence of processExpiredOrderGroup -/

/-- Mapping a function that fixes every element of a list is the identity. -/
theorem map_id_of_fixes {α : Type} (f : α → α) :
    ∀ l : List α, (∀ a ∈ l, f a = a) → l.map f = l := by
  intro l h
  induction l with
  | nil => rfl
  | cons a t ih =>
      simp only [List.map_cons, h a (by simp), ih (fun x hx => h x (by simp [hx]))]

/-- The status flip of processExpiredOrderGroup at a given instant. -/
def expireFlip (uid g : String) (now : Int) (o : Order) : Order :=
  if isExpiredCandidate uid g o && decide (expiresValue o ≤ now) then
    { o with status := "expired" }
  else o

/-- The order store returned by a successful processExpiredOrderGroup is
the map of the status flip over the store. -/
theorem processExpiredOrderGroup_ok (consumption : String → Option Int → Option Int → Int)
    (now : Int) (orders : List Order) (uid g : String) (t : Int) (orders2 : List Order)
    (h : processExpiredOrderGroup consumption now orders uid g = .ok (t, orders2)) :
    ((orders.filter (isExpiredCandidate uid g)).all (fun o => o.expires.isSome) = true) ∧
    t = (orders.filter (isExpiredCandidate uid g)).foldl
      (fun acc o =>
        if now < expiresValue o then acc
        else acc + o.tokenCount.getD 0 + consumption g o.starts o.expires) 0 ∧
    orders2 = orders.map (expireFlip uid g now) := by
  unfold processExpiredOrderGroup at h
  by_cases hg : ((orders.filter (isExpiredCandidate uid g)).all
      (fun o => o.expires.isSome)) = true
  · rw [if_pos hg] at h
    have h2 := Except.ok.inj h
    refine ⟨hg, (congrArg Prod.fst h2).symm, ?_⟩
    have h3 := (congrArg Prod.snd h2).symm
    exact h3
  · rw [if_neg hg] at h
    exact Except.noConfusion h

/-- Candidates surviving a sweep at an instant are exactly the original
candidates that had not yet expired, unchanged. -/
theorem filter_map_expireFlip (uid g : String) (now : Int) (orders : List Order) :
    (orders.map (expireFlip uid g now)).filter (isExpiredCandidate uid g) =
      (orders.filter (isExpiredCandidate uid g)).filter
        (fun o => !(decide (expiresValue o ≤ now))) := by
  induction orders with
  | nil => rfl
  | cons o t ih =>
      simp only [List.map_cons, List.filter_cons]
      by_cases hc : isExpiredCandidate uid g o = true
      · by_cases he : expiresValue o ≤ now
        · have hflip : expireFlip uid g now o = { o with status := "expired" } := by
            simp [expireFlip, hc, he]
          have hcand2 : isExpiredCandidate uid g { o with status := "expired" } = false := by
            simp [isExpiredCandidate]
          rw [hflip]
          simp [hcand2, hc, he, ih]
        · have hflip : expireFlip uid g now o = o := by
            simp [expireFlip, he]
          rw [hflip]
          simp [hc, he, ih]
      · have hflip : expireFlip uid g now o = o := by
          simp [expireFlip, hc]
        rw [hflip]
        simp [hc, ih]

/-- The accumulation of processExpiredOrderGroup vanishes on a candidate
list in which nothing has expired. -/
theorem foldl_expired_zero (consumption : String → Option Int → Option Int → Int)
    (g : String) (now : Int) (l : List Order)
    (h : ∀ o ∈ l, now < expiresValue o) :
    l.foldl (fun acc o =>
      if now < expiresValue o then acc
      else acc + o.tokenCount.getD 0 + consumption g o.starts o.expires) 0 = 0 := by
  have general : ∀ (l2 : List Order) (acc : Int), (∀ o ∈ l2, now < expiresValue o) →
      l2.foldl (fun acc o =>
        if now < expiresValue o then acc
        else acc + o.tokenCount.getD 0 + consumption g o.starts o.expires) acc = acc := by
    intro l2
    induction l2 with
    | nil => intro acc _; rfl
    | cons o t ih =>
        intro acc h2
        simp only [List.foldl_cons, if_pos (h2 o (by simp))]
        exact ih acc (fun x hx => h2 x (by simp [hx]))
  exact general l 0 h

/-- C6: calling processExpiredOrderGroup twice in succession with no new
orders created in between returns 0 on the second call: the first call
flipped every expired candidate to the expired status and the candidate
query keeps only paid orders. The succession hypothesis states that no
order crosses its expiry between the two instants. -/
theorem processExpiredOrderGroup_idempotent
    (consumption : String → Option Int → Option Int → Int) (now1 now2 : Int)
    (orders orders1 : List Order) (uid g : String) (t1 : Int)
    (h1 : processExpiredOrderGroup consumption now1 orders uid g = .ok (t1, orders1))
    (hnow : ∀ o ∈ orders, isExpiredCandidate uid g o = true →
      expiresValue o ≤ now2 → expiresValue o ≤ now1) :
    processExpiredOrderGroup consumption now2 orders1 uid g = .ok (0, orders1) := by
  obtain ⟨hg, -, horders⟩ := processExpiredOrderGroup_ok consumption now1 orders uid g
    t1 orders1 h1
  have hfil : orders1.filter (isExpiredCandidate uid g) =
      (orders.filter (isExpiredCandidate uid g)).filter
        (fun o => !(decide (expiresValue o ≤ now1))) := by
    rw [horders]
    exact filter_map_expireFlip uid g now1 orders
  have hsurvivors : ∀ o ∈ orders1.filter (isExpiredCandidate uid g),
      now2 < expiresValue o := by
    intro o ho
    rw [hfil] at ho
    have h2 := List.mem_filter.mp ho
    have h3 := List.mem_filter.mp h2.1
    have hno1 : ¬ expiresValue o ≤ now1 := by simpa using h2.2
    by_contra hle
    exact hno1 (hnow o h3.1 h3.2 (by omega))
  have hguard : (orders1.filter (isExpiredCandidate uid g)).all
      (fun o => o.expires.isSome) = true := by
    rw [List.all_eq_true] at hg ⊢
    intro o ho
    rw [hfil] at ho
    exact hg o (List.mem_filter.mp ho).1
  unfold processExpiredOrderGroup
  rw [if_pos hguard]
  have hzero := foldl_expired_zero consumption g now2 _ hsurvivors
  have hid : orders1.map (fun o =>
      if isExpiredCandidate uid g o && decide (expiresValue o ≤ now2) then
        { o with status := "expired" }
      else o) = orders1 := by
    apply map_id_of_fixes
    intro o ho
    by_cases hc : isExpiredCandidate uid g o = true
    · have : now2 < expiresValue o := by
        apply hsurvivors
        exact List.mem_filter.mpr ⟨ho, hc⟩
      rw [show (isExpiredCandidate uid g o && decide (expiresValue o ≤ now2)) = false by
        simp [hc]; omega]
      simp
    · rw [show (isExpiredCandidate uid g o && decide (expiresValue o ≤ now2)) = false by
        simp [hc]]
      simp
  rw [hzero, hid]

/-- Witness for C6: one paid order expired at 50 against now 100; the first
call returns its 10 unconsumed tokens minus 6 consumed and flips it, the
second call returns 0. -/
theorem processExpiredOrderGroup_idempotent_witness :
    processExpiredOrderGroup (fun _ _ _ => -6) 100
      [{ _id := "o1", userId := "u", offerGroup := "G", offerId := "of",
         parentId := none, quantity := none, total := 0, status := "expired",
         starts := some 10, expires := some 50, tokenCount := some 10,
         cycle := none, customCycle := none, currency := "usd", combinedItems := [] }]
      "u" "G" = .ok (0,
        [{ _id := "o1", userId := "u", offerGroup := "G", offerId := "of",
           parentId := none, quantity := none, total := 0, status := "expired",
           starts := some 10, expires := some 50, tokenCount := some 10,
           cycle := none, customCycle := none, currency := "usd", combinedItems := [] }]) :=
  processExpiredOrderGroup_idempotent (fun _ _ _ => -6) 100 100
    [{ _id := "o1", userId := "u", offerGroup := "G", offerId := "of",
       parentId := none, quantity := none, total := 0, status := "paid",
       starts := some 10, expires := some 50, tokenCount := some 10,
       cycle := none, customCycle := none, currency := "usd", combinedItems := [] }]
    [{ _id := "o1", userId := "u", offerGroup := "G", offerId := "of",
       parentId := none, quantity := none, total := 0, status := "expired",
       starts := some 10, expires := some 50, tokenCount := some 10,
       cycle := none, customCycle := none, currency := "usd", combinedItems := [] }]
    "u" "G" 4 rfl (by decide)

/-! ### C5: the expiry sweep -/

/-- A balance-sheet entry counts as expired at an instant when it records
an expiry that is not in the future. -/
def isExpiredEntry (now : Int) (g : ActivatedOffer) : Bool :=
  match g.expires with
  | some e => decide (e ≤ now)
  | none => false

/-- The cumulative status flip of the sweep: a paid order of the user
whose offerGroup lies in the processed set and whose expiry is not in the
future is flipped to expired. -/
def flipMany (uid : String) (now : Int) (S : List String) (o : Order) : Order :=
  if o.status == "paid" && o.userId == uid && S.contains o.offerGroup &&
      decide (expiresValue o ≤ now) then
    { o with status := "expired" }
  else o

/-- The trailing unconsumed tokens computed by processExpiredOrderGroup on
a store, 0 when the call fails. -/
def expiredSubtract (consumption : String → Option Int → Option Int → Int)
    (now : Int) (orders : List Order) (uid g : String) : Int :=
  ((processExpiredOrderGroup consumption now orders uid g).toOption.map
    (fun p => p.1)).getD 0

theorem flipMany_nil (uid : String) (now : Int) (orders : List Order) :
    orders.map (flipMany uid now []) = orders := by
  apply map_id_of_fixes
  intro o _
  simp [flipMany]

theorem expireFlip_flipMany (uid g : String) (now : Int) (S : List String) (o : Order) :
    expireFlip uid g now (flipMany uid now S o) = flipMany uid now (S ++ [g]) o := by
  by_cases h1 : o.status = "paid" <;>
    by_cases h2 : o.userId = uid <;>
      by_cases h3 : o.offerGroup ∈ S <;>
        by_cases h4 : expiresValue o ≤ now <;>
          by_cases h5 : o.offerGroup = g
  all_goals (try subst h5)
  all_goals (try subst h2)
  all_goals (try simp_all [flipMany, expireFlip, isExpiredCandidate, expiresValue])
  all_goals (rw [if_neg (not_le.mpr h4)]; simp)
  all_goals (intros; first | omega | simp_all)

theorem filter_map_eq {α : Type} (f : α → α) (p : α → Bool) (l : List α)
    (h : ∀ a ∈ l, p (f a) = p a ∧ (p a = true → f a = a)) :
    (l.map f).filter p = l.filter p := by
  induction l with
  | nil => rfl
  | cons a t ih =>
      have ⟨hpa, hfix⟩ := h a (by simp)
      simp only [List.map_cons, List.filter_cons, hpa]
      by_cases hp : p a = true
      · rw [hp]
        simp only [if_true, hfix hp]
        rw [ih (fun x hx => h x (by simp [hx]))]
      · rw [show p a = false by simpa using hp]
        simp only [Bool.false_eq_true, if_false]
        exact ih (fun x hx => h x (by simp [hx]))

/-- Orders of a group outside the processed set keep their candidate
status and content under the cumulative flip. -/
theorem flipMany_cand (uid g : String) (now : Int) (S : List String)
    (hgS : S.contains g = false) (o : Order) :
    isExpiredCandidate uid g (flipMany uid now S o) = isExpiredCandidate uid g o ∧
    (isExpiredCandidate uid g o = true → flipMany uid now S o = o) := by
  have hgS2 : g ∉ S := by simpa using hgS
  by_cases h1 : o.status = "paid" <;>
    by_cases h2 : o.userId = uid <;>
      by_cases h3 : o.offerGroup ∈ S <;>
        by_cases h4 : expiresValue o ≤ now <;>
          by_cases h5 : o.offerGroup = g
  all_goals (try subst h5)
  all_goals (try subst h2)
  all_goals (try simp_all [flipMany, isExpiredCandidate, expiresValue])
  all_goals (rw [if_neg (not_le.mpr h4)]; simp)
  all_goals (intros; first | omega | simp_all)

/-- Mapping pointwise equal functions gives equal lists. -/
theorem map_congr_fun {α β : Type} (f h : α → β) (l : List α) (hp : ∀ a, f a = h a) :
    l.map f = l.map h := by
  induction l with
  | nil => rfl
  | cons a t ih => simp [hp a, ih]

/-- Processing an offerGroup outside the already-processed set on the
current store behaves as on the original store: it returns the trailing
tokens of that group and extends the cumulative flip by the group. -/
theorem processExpired_flipMany (consumption : String → Option Int → Option Int → Int)
    (now : Int) (uid g : String) (S : List String) (orders : List Order)
    (hgS : S.contains g = false)
    (hpaid : ∀ o ∈ orders, o.status = "paid" → o.userId = uid → o.expires.isSome = true) :
    processExpiredOrderGroup consumption now (orders.map (flipMany uid now S)) uid g =
      .ok (expiredSubtract consumption now orders uid g,
           orders.map (flipMany uid now (S ++ [g]))) := by
  have hfm : (orders.map (flipMany uid now S)).filter (isExpiredCandidate uid g) =
      orders.filter (isExpiredCandidate uid g) :=
    filter_map_eq _ _ _ (fun o _ => flipMany_cand uid g now S hgS o)
  have hguard : (orders.filter (isExpiredCandidate uid g)).all
      (fun o => o.expires.isSome) = true := by
    rw [List.all_eq_true]
    intro o ho
    have h2 := List.mem_filter.mp ho
    have h3 := h2.2
    simp only [isExpiredCandidate, Bool.and_eq_true, beq_iff_eq] at h3
    exact hpaid o h2.1 h3.1.2 h3.1.1
  have hsub : expiredSubtract consumption now orders uid g =
      (orders.filter (isExpiredCandidate uid g)).foldl
        (fun acc o =>
          if now < expiresValue o then acc
          else acc + o.tokenCount.getD 0 + consumption g o.starts o.expires) 0 := by
    unfold expiredSubtract processExpiredOrderGroup
    rw [if_pos hguard]
    rfl
  unfold processExpiredOrderGroup
  rw [hfm, if_pos hguard, hsub]
  have hmap : List.map
      ((fun o => if isExpiredCandidate uid g o && decide (expiresValue o ≤ now) then
          { o with status := "expired" } else o) ∘ flipMany uid now S) orders =
      List.map (flipMany uid now (S ++ [g])) orders :=
    map_congr_fun _ _ orders (fun o => expireFlip_flipMany uid g now S o)
  rw [List.map_map, hmap]

theorem lowWarn_none (g : ActivatedOffer) : lowWarn none g = [] := by
  unfold lowWarn
  split_ifs <;> rfl

/-- The sweep loop at warn window 0 and without low thresholds reports as
expired exactly the entries whose recorded expiry is not in the future,
with the trailing tokens of their group subtracted, reports no warnings,
and flips the paid orders of the expired groups. -/
theorem sweepLoop_spec (consumption : String → Option Int → Option Int → Int)
    (now : Int) (uid : String) (orders : List Order)
    (hpaid : ∀ o ∈ orders, o.status = "paid" → o.userId = uid → o.expires.isSome = true) :
    ∀ (groups : List ActivatedOffer) (S : List String),
      (groups.map (fun g => g.offerGroup)).Nodup →
      (∀ g ∈ groups, S.contains g.offerGroup = false) →
      sweepLoop consumption now uid 0 none groups (orders.map (flipMany uid now S)) =
        .ok ((groups.filter (isExpiredEntry now)).map (fun g =>
               { g with tokens := some (g.tokens.getD 0 -
                 expiredSubtract consumption now orders uid g.offerGroup) }),
             [],
             orders.map (flipMany uid now
               (S ++ (groups.filter (isExpiredEntry now)).map (fun g => g.offerGroup)))) := by
  intro groups
  induction groups with
  | nil =>
      intro S _ _
      simp [sweepLoop]
  | cons g rest ih =>
      intro S hN hdisj
      have hN3 : (g.offerGroup :: rest.map (fun x => x.offerGroup)).Nodup := by
        simpa using hN
      have hN2 := List.nodup_cons.mp hN3
      have hNr : (rest.map (fun x => x.offerGroup)).Nodup := hN2.2
      have hni : g.offerGroup ∉ rest.map (fun x => x.offerGroup) := hN2.1
      have hdisjr : ∀ x ∈ rest, S.contains x.offerGroup = false :=
        fun x hx => hdisj x (by simp [hx])
      cases hge : g.expires with
      | none =>
          have hie : isExpiredEntry now g = false := by simp [isExpiredEntry, hge]
          simp only [sweepLoop, hge]
          rw [ih S hNr hdisjr]
          simp [List.filter_cons, hie]
      | some e =>
          by_cases he : e - now ≤ 0
          · have hie : isExpiredEntry now g = true := by
              simp only [isExpiredEntry, hge]
              simp
              omega
            have hgS : S.contains g.offerGroup = false := hdisj g (by simp)
            have hdisj2 : ∀ x ∈ rest, (S ++ [g.offerGroup]).contains x.offerGroup = false := by
              intro x hx
              have h1 : S.contains x.offerGroup = false := hdisjr x hx
              have h2 : x.offerGroup ≠ g.offerGroup := by
                intro hxy
                exact hni (hxy ▸ List.mem_map_of_mem (fun y => y.offerGroup) hx)
              simp at h1 ⊢
              exact ⟨h1, h2⟩
            simp only [sweepLoop, hge]
            rw [if_pos he, if_pos he]
            simp only [processExpired_flipMany consumption now uid g.offerGroup S
              orders hgS hpaid]
            simp only [ih (S ++ [g.offerGroup]) hNr hdisj2]
            simp only [lowWarn_none, List.nil_append]
            rw [List.filter_cons_of_pos (by simp [hie])]
            simp [List.append_assoc, hge]
          · have hie : isExpiredEntry now g = false := by
              simp only [isExpiredEntry, hge]
              simp
              omega
            simp only [sweepLoop, hge]
            rw [if_neg he]
            simp only [ih S hNr hdisjr]
            simp only [lowWarn_none, List.nil_append]
            rw [List.filter_cons_of_neg (by simp [hie])]

/-- C5: on a user whose balance-sheet groups are pairwise distinct and
whose paid orders all record an expiry, the sweep with warn window 0 and
no low thresholds reports as expired exactly the entries whose expiry is
not in the future, each with the trailing unconsumed tokens of its group
subtracted from its balance (possibly below zero); reports no warnings;
removes every expired group from the balance sheet, persisting once when
anything expired; flips exactly the paid orders of the expired groups
whose expiry is not in the future to the expired status; and no group
appears twice in the expired report. -/
theorem checkForExpiredOrders_sweep (consumption : String → Option Int → Option Int → Int)
    (now : Int) (offers : List ActivatedOffer) (orders : List Order) (uid : String)
    (hN : (offers.map (fun g => g.offerGroup)).Nodup)
    (hpaid : ∀ o ∈ orders, o.status = "paid" → o.userId = uid → o.expires.isSome = true) :
    checkForExpiredOrders consumption now (some offers) orders uid (some 0) none =
      .ok { expired := (offers.filter (isExpiredEntry now)).map (fun g =>
              { g with tokens := some (g.tokens.getD 0 -
                  expiredSubtract consumption now orders uid g.offerGroup) })
            warnings := []
            offers := offers.filter (fun g => !(isExpiredEntry now g))
            orders := orders.map (flipMany uid now
              ((offers.filter (isExpiredEntry now)).map (fun g => g.offerGroup)))
            saveCount := if 0 < (offers.filter (isExpiredEntry now)).length then 1 else 0 } ∧
    ((offers.filter (isExpiredEntry now)).map (fun g => g.offerGroup)).Nodup := by
  have hinj := List.inj_on_of_nodup_map hN
  have hnodupExp : ((offers.filter (isExpiredEntry now)).map (fun g => g.offerGroup)).Nodup := by
    apply List.Nodup.sublist _ hN
    exact List.Sublist.map _ (List.filter_sublist offers)
  refine ⟨?_, hnodupExp⟩
  have h0 : orders.map (flipMany uid now []) = orders := flipMany_nil uid now orders
  have hs := sweepLoop_spec consumption now uid orders hpaid offers [] hN
    (by intro g _; rfl)
  rw [h0] at hs
  unfold checkForExpiredOrders
  simp only [List.nil_append] at hs
  have hgd : ((some (0 : Int)).getD 0) = 0 := rfl
  simp only [hgd, hs]
  have hfilters : offers.filter (fun o =>
      !(((offers.filter (isExpiredEntry now)).map (fun g =>
          { g with tokens := some (g.tokens.getD 0 -
              expiredSubtract consumption now orders uid g.offerGroup) })).any
        (fun e2 => o.offerGroup == e2.offerGroup))) =
      offers.filter (fun g => !(isExpiredEntry now g)) := by
    apply List.filter_congr
    intro o ho
    have hany : (((offers.filter (isExpiredEntry now)).map (fun g =>
        { g with tokens := some (g.tokens.getD 0 -
            expiredSubtract consumption now orders uid g.offerGroup) })).any
      (fun e2 => o.offerGroup == e2.offerGroup)) = isExpiredEntry now o := by
      rw [List.any_map]
      by_cases hq : isExpiredEntry now o = true
      · rw [hq]
        rw [List.any_eq_true]
        exact ⟨o, List.mem_filter.mpr ⟨ho, hq⟩, by simp⟩
      · rw [show isExpiredEntry now o = false by simpa using hq]
        rw [List.any_eq_false]
        intro x hx
        have hx2 := List.mem_filter.mp hx
        simp only [Function.comp]
        intro hxo
        have hgg : o.offerGroup = x.offerGroup := by simpa using hxo
        have hox : o = x := hinj ho hx2.1 hgg
        rw [hox] at hq
        exact hq hx2.2
    rw [hany]
  rw [hfilters]
  congr 2
  rw [List.length_map]

/-- An expired balance-sheet entry for the C5 witness. -/
def c5expired : ActivatedOffer :=
  { offerGroup := "eg", starts := some 0, expires := some 50, tokens := some 10 }

/-- A live balance-sheet entry for the C5 witness. -/
def c5active : ActivatedOffer :=
  { offerGroup := "ag", starts := some 0, expires := some 10000, tokens := some 10 }

/-- The paid order of the expired group for the C5 witness. -/
def c5order : Order :=
  { _id := "o1", userId := "u", offerGroup := "eg", offerId := "of",
    parentId := none, quantity := none, total := 0, status := "paid",
    starts := some 5, expires := some 40, tokenCount := some 10,
    cycle := none, customCycle := none, currency := "usd", combinedItems := [] }

/-- Witness for C5: at now 100 with warn window 0, the eg entry (expired
at 50) is reported with its balance cut by the trailing 4 tokens, the ag
entry survives, the paid eg order flips, and the sheet is saved once. -/
theorem checkForExpiredOrders_sweep_witness :
    (checkForExpiredOrders (fun _ _ _ => -6) 100 (some [c5expired, c5active])
        [c5order] "u" (some 0) none =
      .ok { expired := ([c5expired, c5active].filter (isExpiredEntry 100)).map (fun g =>
              { g with tokens := some (g.tokens.getD 0 -
                  expiredSubtract (fun _ _ _ => -6) 100 [c5order] "u" g.offerGroup) })
            warnings := []
            offers := [c5expired, c5active].filter (fun g => !(isExpiredEntry 100 g))
            orders := [c5order].map (flipMany "u" 100
              (([c5expired, c5active].filter (isExpiredEntry 100)).map (fun g => g.offerGroup)))
            saveCount := if 0 < ([c5expired, c5active].filter (isExpiredEntry 100)).length
                         then 1 else 0 }) ∧
    (([c5expired, c5active].filter (isExpiredEntry 100)).map (fun g => g.offerGroup)).Nodup :=
  checkForExpiredOrders_sweep (fun _ _ _ => -6) 100 [c5expired, c5active] [c5order]
    "u" (by decide) (by decide)

/-! ### C7: merging regular and unlocked offers -/

/-- The overriding keys occurring among the dependent offers, in order of
first appearance, the iteration order of the JS Map. -/
def depKeys (deps : List Offer) : List String :=
  deps.foldl (fun ks d => if d.overridingKey ∈ ks then ks else ks ++ [d.overridingKey]) []

/-- The running best of the map population loop: a later offer replaces
the current best only on strictly greater weight, so the result is the
first offer attaining the maximal weight. -/
def firstMax (h : Offer) (t : List Offer) : Offer :=
  t.foldl (fun b e => if b.weight < e.weight then e else b) h

/-- The winning dependent offer of a key: the first offer of that key
attaining the maximal weight among the dependent offers of the key. -/
def winnerFor (deps : List Offer) (k : String) : Offer :=
  match deps.filter (fun d => d.overridingKey == k) with
  | [] => { _id := "", offerGroup := "", cycle := none, customCycle := none,
            tokenCount := none, price := 0, quantityLimit := none,
            appendDate := false, overridingKey := k, weight := 0,
            combinedItems := [] }
  | h :: t => firstMax h t

theorem mem_depKeys_aux (deps : List Offer) :
    ∀ (acc : List String) (k : String),
      k ∈ deps.foldl (fun ks d =>
        if d.overridingKey ∈ ks then ks else ks ++ [d.overridingKey]) acc ↔
      (k ∈ acc ∨ ∃ d ∈ deps, d.overridingKey = k) := by
  induction deps with
  | nil => intro acc k; simp
  | cons d t ih =>
      intro acc k
      simp only [List.foldl_cons]
      by_cases hd : d.overridingKey ∈ acc
      · rw [if_pos hd, ih]
        constructor
        · rintro (h | ⟨x, hx, hk⟩)
          · exact Or.inl h
          · exact Or.inr ⟨x, by simp [hx], hk⟩
        · rintro (h | ⟨x, hx, hk⟩)
          · exact Or.inl h
          · rcases List.mem_cons.mp hx with rfl | hx2
            · exact Or.inl (hk ▸ hd)
            · exact Or.inr ⟨x, hx2, hk⟩
      · rw [if_neg hd, ih]
        constructor
        · rintro (h | ⟨x, hx, hk⟩)
          · rcases List.mem_append.mp h with h2 | h2
            · exact Or.inl h2
            · exact Or.inr ⟨d, by simp, (show k = d.overridingKey by simpa using h2).symm⟩
          · exact Or.inr ⟨x, by simp [hx], hk⟩
        · rintro (h | ⟨x, hx, hk⟩)
          · exact Or.inl (List.mem_append.mpr (Or.inl h))
          · rcases List.mem_cons.mp hx with rfl | hx2
            · exact Or.inl (List.mem_append.mpr (Or.inr (by simp [hk])))
            · exact Or.inr ⟨x, hx2, hk⟩

theorem mem_depKeys (deps : List Offer) (k : String) :
    k ∈ depKeys deps ↔ ∃ d ∈ deps, d.overridingKey = k := by
  rw [depKeys, mem_depKeys_aux]
  simp

theorem nodup_append_singleton {α : Type} (l : List α) (a : α)
    (hl : l.Nodup) (ha : a ∉ l) : (l ++ [a]).Nodup := by
  induction l with
  | nil => simp
  | cons x t ih =>
      have hx := List.nodup_cons.mp hl
      refine List.nodup_cons.mpr ⟨?_, ih hx.2 (fun h => ha (by simp [h]))⟩
      intro hmem
      rcases List.mem_append.mp hmem with h | h
      · exact hx.1 h
      · exact ha (by simp [show x = a by simpa using h])

theorem depKeys_nodup_aux (deps : List Offer) :
    ∀ acc : List String, acc.Nodup →
      (deps.foldl (fun ks d =>
        if d.overridingKey ∈ ks then ks else ks ++ [d.overridingKey]) acc).Nodup := by
  induction deps with
  | nil => intro acc h; exact h
  | cons d t ih =>
      intro acc h
      simp only [List.foldl_cons]
      by_cases hd : d.overridingKey ∈ acc
      · rw [if_pos hd]; exact ih acc h
      · rw [if_neg hd]
        exact ih _ (nodup_append_singleton acc _ h hd)

theorem depKeys_nodup (deps : List Offer) : (depKeys deps).Nodup :=
  depKeys_nodup_aux deps [] (by simp)

theorem depKeys_append (deps : List Offer) (u : Offer) :
    depKeys (deps ++ [u]) =
      if u.overridingKey ∈ depKeys deps then depKeys deps
      else depKeys deps ++ [u.overridingKey] := by
  unfold depKeys
  rw [List.foldl_append]
  rfl

theorem firstMax_append (h : Offer) (t : List Offer) (u : Offer) :
    firstMax h (t ++ [u]) =
      if (firstMax h t).weight < u.weight then u else firstMax h t := by
  unfold firstMax
  rw [List.foldl_append]
  rfl

/-- The running best belongs to the candidates and dominates them all. -/
theorem firstMax_best (t : List Offer) :
    ∀ h : Offer, (firstMax h t = h ∨ firstMax h t ∈ t) ∧
      h.weight ≤ (firstMax h t).weight ∧
      ∀ x ∈ t, x.weight ≤ (firstMax h t).weight := by
  induction t with
  | nil => intro h; exact ⟨Or.inl rfl, le_refl _, by simp⟩
  | cons a t ih =>
      intro h
      have hstep : firstMax h (a :: t) =
          if h.weight < a.weight then firstMax a t else firstMax h t := by
        unfold firstMax
        rw [List.foldl_cons]
        by_cases hw : h.weight < a.weight
        · rw [if_pos hw, if_pos hw]
        · rw [if_neg hw, if_neg hw]
      by_cases hw : h.weight < a.weight
      · rw [hstep, if_pos hw]
        obtain ⟨hmem, hle, hall⟩ := ih a
        refine ⟨?_, ?_, ?_⟩
        · rcases hmem with h2 | h2
          · exact Or.inr (by rw [h2]; exact List.mem_cons_self a t)
          · exact Or.inr (List.mem_cons_of_mem a h2)
        · exact le_trans (le_of_lt hw) hle
        · intro x hx
          rcases List.mem_cons.mp hx with rfl | h2
          · exact hle
          · exact hall x h2
      · rw [hstep, if_neg hw]
        obtain ⟨hmem, hle, hall⟩ := ih h
        refine ⟨?_, hle, ?_⟩
        · rcases hmem with h2 | h2
          · exact Or.inl h2
          · exact Or.inr (List.mem_cons_of_mem a h2)
        · intro x hx
          rcases List.mem_cons.mp hx with rfl | h2
          · exact le_trans (not_lt.mp hw) hle
          · exact hall x h2

/-- The winner of a key present among the dependents is a dependent of
that key dominating every dependent of that key. -/
theorem winnerFor_spec (deps : List Offer) (k : String) (hk : k ∈ depKeys deps) :
    winnerFor deps k ∈ deps ∧ (winnerFor deps k).overridingKey = k ∧
      ∀ d ∈ deps, d.overridingKey = k → d.weight ≤ (winnerFor deps k).weight := by
  obtain ⟨d0, hd0, hd0k⟩ := (mem_depKeys deps k).mp hk
  have hne : deps.filter (fun d => d.overridingKey == k) ≠ [] := by
    intro hnil
    have := List.filter_eq_nil.mp hnil d0 hd0
    simp [hd0k] at this
  cases hfil : deps.filter (fun d => d.overridingKey == k) with
  | nil => exact absurd hfil hne
  | cons h t =>
      have hw : winnerFor deps k = firstMax h t := by
        unfold winnerFor
        rw [hfil]
      obtain ⟨hmem, hhle, hall⟩ := firstMax_best t h
      have hmem2 : firstMax h t ∈ deps.filter (fun d => d.overridingKey == k) := by
        rw [hfil]
        rcases hmem with h2 | h2
        · simp [h2]
        · simp [h2]
      have hmem3 := List.mem_filter.mp hmem2
      refine ⟨hw ▸ hmem3.1, hw ▸ (by simpa using hmem3.2), ?_⟩
      intro d hd hdk
      have hdfil : d ∈ deps.filter (fun d2 => d2.overridingKey == k) :=
        List.mem_filter.mpr ⟨hd, by simp [hdk]⟩
      rw [hfil] at hdfil
      rw [hw]
      rcases List.mem_cons.mp hdfil with rfl | h2
      · exact hhle
      · exact hall d h2

theorem mapGet_keysMap (ks : List String) (f : String → Offer) (k : String) :
    mapGet (ks.map (fun x => (x, f x))) k =
      if k ∈ ks then some (f k) else none := by
  induction ks with
  | nil => rfl
  | cons a t ih =>
      simp only [List.map_cons, mapGet, List.find?]
      by_cases ha : a = k
      · subst ha
        simp
      · rw [show ((a, f a).1 == k) = false by simpa using ha]
        rw [show mapGet (t.map (fun x => (x, f x))) k =
          ((t.map (fun x => (x, f x))).find? (fun p => p.1 == k)).map (fun p => p.2) from rfl] at ih
        rw [ih]
        by_cases hk : k ∈ t
        · rw [if_pos hk, if_pos (by simp [hk])]
        · rw [if_neg hk, if_neg (by simp [hk, Ne.symm ha])]

theorem map_congr_mem {α β : Type} (l : List α) (f g : α → β)
    (h : ∀ a ∈ l, f a = g a) : l.map f = l.map g := by
  induction l with
  | nil => rfl
  | cons a t ih =>
      simp only [List.map_cons, h a (by simp)]
      rw [ih (fun x hx => h x (by simp [hx]))]

theorem mapSet_keysMap_mem (ks : List String) (f : String → Offer) (k : String)
    (v : Offer) (hk : k ∈ ks) :
    mapSet (ks.map (fun x => (x, f x))) k v =
      ks.map (fun x => (x, if x = k then v else f x)) := by
  unfold mapSet
  rw [if_pos (by
    rw [List.any_eq_true]
    exact ⟨(k, f k), List.mem_map.mpr ⟨k, hk, rfl⟩, by simp⟩)]
  rw [List.map_map]
  apply map_congr_mem
  intro a _
  simp only [Function.comp]
  by_cases ha : a = k
  · subst ha
    simp
  · rw [show ((a, f a).1 == k) = false by simpa using ha]
    simp [ha]

theorem mapSet_keysMap_notmem (ks : List String) (f : String → Offer) (k : String)
    (v : Offer) (hk : k ∉ ks) :
    mapSet (ks.map (fun x => (x, f x))) k v =
      ks.map (fun x => (x, f x)) ++ [(k, v)] := by
  unfold mapSet
  rw [if_neg (by
    intro hany
    obtain ⟨p, hp, hpk⟩ := List.any_eq_true.mp hany
    obtain ⟨x, hx, rfl⟩ := List.mem_map.mp hp
    exact hk ((show x = k by simpa using hpk) ▸ hx))]

theorem filter_key_append (deps : List Offer) (u : Offer) (k : String) :
    (deps ++ [u]).filter (fun d => d.overridingKey == k) =
      deps.filter (fun d => d.overridingKey == k) ++
        (if u.overridingKey = k then [u] else []) := by
  rw [List.filter_append]
  congr 1
  by_cases h : u.overridingKey = k
  · simp [h]
  · simp [h]

theorem winnerFor_append_ne (deps : List Offer) (u : Offer) (k : String)
    (h : u.overridingKey ≠ k) :
    winnerFor (deps ++ [u]) k = winnerFor deps k := by
  unfold winnerFor
  rw [filter_key_append, if_neg h, List.append_nil]

theorem filter_key_eq_nil (deps : List Offer) (k : String)
    (h : k ∉ depKeys deps) :
    deps.filter (fun d => d.overridingKey == k) = [] := by
  rw [List.filter_eq_nil_iff]
  intro d hd
  simp only [beq_iff_eq]
  intro hdk
  exact h ((mem_depKeys deps k).mpr ⟨d, hd, hdk⟩)

theorem winnerFor_append_self_fresh (deps : List Offer) (u : Offer)
    (h : deps.filter (fun d => d.overridingKey == u.overridingKey) = []) :
    winnerFor (deps ++ [u]) u.overridingKey = u := by
  unfold winnerFor
  rw [filter_key_append, if_pos rfl, h]
  rfl

theorem winnerFor_append_self_existing (deps : List Offer) (u : Offer)
    (h : Offer) (t : List Offer)
    (hfil : deps.filter (fun d => d.overridingKey == u.overridingKey) = h :: t) :
    winnerFor (deps ++ [u]) u.overridingKey =
      if (winnerFor deps u.overridingKey).weight < u.weight then u
      else winnerFor deps u.overridingKey := by
  unfold winnerFor
  rw [filter_key_append, if_pos rfl, hfil]
  simp only [List.cons_append]
  rw [firstMax_append]

/-- The map built by the mergeOffers loop lists, key by key in first-seen
order, the heaviest dependent offer of each key. -/
theorem buildUnlockedMap_eq (deps : List Offer) :
    buildUnlockedMap deps = (depKeys deps).map (fun k => (k, winnerFor deps k)) := by
  induction deps using List.reverseRecOn with
  | nil => rfl
  | append_singleton deps u ih =>
      have hstep : buildUnlockedMap (deps ++ [u]) =
          (match mapGet (buildUnlockedMap deps) u.overridingKey with
           | none => mapSet (buildUnlockedMap deps) u.overridingKey u
           | some existing =>
               if existing.weight < u.weight then
                 mapSet (buildUnlockedMap deps) u.overridingKey u
               else buildUnlockedMap deps) := by
        unfold buildUnlockedMap
        rw [List.foldl_append]
        rfl
      by_cases hk : u.overridingKey ∈ depKeys deps
      · have hget : mapGet (buildUnlockedMap deps) u.overridingKey =
            some (winnerFor deps u.overridingKey) := by
          rw [ih, mapGet_keysMap, if_pos hk]
        have hstep2 : buildUnlockedMap (deps ++ [u]) =
            if (winnerFor deps u.overridingKey).weight < u.weight then
              mapSet (buildUnlockedMap deps) u.overridingKey u
            else buildUnlockedMap deps := by
          rw [hstep, hget]
        have hdk : depKeys (deps ++ [u]) = depKeys deps := by
          rw [depKeys_append, if_pos hk]
        obtain ⟨d0, hd0, hd0k⟩ := (mem_depKeys deps u.overridingKey).mp hk
        have hne : deps.filter (fun d => d.overridingKey == u.overridingKey) ≠ [] := by
          intro hnil
          have := List.filter_eq_nil_iff.mp hnil d0 hd0
          simp [hd0k] at this
        cases hfil : deps.filter (fun d => d.overridingKey == u.overridingKey) with
        | nil => exact absurd hfil hne
        | cons h t =>
            have hself := winnerFor_append_self_existing deps u h t hfil
            by_cases hlt : (winnerFor deps u.overridingKey).weight < u.weight
            · rw [hstep2, if_pos hlt, ih, mapSet_keysMap_mem _ _ _ _ hk, hdk]
              apply map_congr_mem
              intro x hx
              dsimp only
              by_cases hxk : x = u.overridingKey
              · subst hxk
                rw [if_pos rfl, hself, if_pos hlt]
              · rw [if_neg hxk, winnerFor_append_ne deps u x (fun he => hxk he.symm)]
            · rw [hstep2, if_neg hlt, ih, hdk]
              apply map_congr_mem
              intro x hx
              dsimp only
              by_cases hxk : x = u.overridingKey
              · subst hxk
                rw [hself, if_neg hlt]
              · rw [winnerFor_append_ne deps u x (fun he => hxk he.symm)]
      · have hget : mapGet (buildUnlockedMap deps) u.overridingKey = none := by
          rw [ih, mapGet_keysMap, if_neg hk]
        have hstep2 : buildUnlockedMap (deps ++ [u]) =
            mapSet (buildUnlockedMap deps) u.overridingKey u := by
          rw [hstep, hget]
        have hdk : depKeys (deps ++ [u]) = depKeys deps ++ [u.overridingKey] := by
          rw [depKeys_append, if_neg hk]
        rw [hstep2, ih, mapSet_keysMap_notmem _ _ _ _ hk, hdk, List.map_append]
        congr 1
        · apply map_congr_mem
          intro x hx
          dsimp only
          rw [winnerFor_append_ne deps u x (fun he => hk (by rw [he]; exact hx))]
        · simp only [List.map_cons, List.map_nil]
          rw [winnerFor_append_self_fresh deps u (filter_key_eq_nil deps _ hk)]

/-- The regular offer of the C7 example: overridingKey K. -/
def c7reg : Offer :=
  { _id := "reg", offerGroup := "g", cycle := none, customCycle := none,
    tokenCount := none, price := 10, quantityLimit := none, appendDate := false,
    overridingKey := "K", weight := 0, combinedItems := [] }

/-- The weight-1 dependent offer of the C7 example. -/
def c7dep1 : Offer :=
  { c7reg with
    _id := "d1"
    weight := 1 }

/-- The weight-2 dependent offer of the C7 example. -/
def c7dep2 : Offer :=
  { c7reg with
    _id := "d2"
    weight := 2 }

/-- C7: mergeOffers returns exactly the regular offers whose overridingKey
is held by no dependent offer, followed by, for each overridingKey
occurring among the dependent offers (each key once, in first-seen order),
the single winning dependent offer of that key: a dependent offer carrying
that key whose weight dominates every dependent offer of the key (on ties
the first seen wins, matching the strict-inequality guard of the source).
In particular one regular offer with overridingKey K against dependent
offers of weights 1 and 2 on K yields exactly the weight-2 offer. -/
theorem mergeOffers_correct (regs deps : List Offer) :
    mergeOffers regs deps =
      regs.filter (fun r => !(deps.any (fun d => d.overridingKey == r.overridingKey))) ++
        (depKeys deps).map (fun k => winnerFor deps k) ∧
    (depKeys deps).Nodup ∧
    (∀ k, k ∈ depKeys deps ↔ ∃ d ∈ deps, d.overridingKey = k) ∧
    (∀ k ∈ depKeys deps,
      winnerFor deps k ∈ deps ∧ (winnerFor deps k).overridingKey = k ∧
        ∀ d ∈ deps, d.overridingKey = k → d.weight ≤ (winnerFor deps k).weight) ∧
    mergeOffers [c7reg] [c7dep1, c7dep2] = [c7dep2] := by
  refine ⟨?_, depKeys_nodup deps, fun k => mem_depKeys deps k,
    fun k hk => winnerFor_spec deps k hk, by decide⟩
  show (buildUnlockedMap deps |> fun m =>
      (regs.filter (fun r => (mapGet m r.overridingKey).isNone)) ++ m.map (fun p => p.2)) = _
  simp only [buildUnlockedMap_eq, List.map_map]
  congr 1
  apply List.filter_congr
  intro r hr
  rw [mapGet_keysMap]
  by_cases h : r.overridingKey ∈ depKeys deps
  · rw [if_pos h]
    obtain ⟨d, hd, hdk⟩ := (mem_depKeys deps r.overridingKey).mp h
    have hany : deps.any (fun d => d.overridingKey == r.overridingKey) = true :=
      List.any_eq_true.mpr ⟨d, hd, by simp [hdk]⟩
    rw [hany]
    rfl
  · rw [if_neg h]
    have hany : deps.any (fun d => d.overridingKey == r.overridingKey) = false := by
      cases hb : deps.any (fun d => d.overridingKey == r.overridingKey) with
      | false => rfl
      | true =>
          obtain ⟨d, hd, hdk⟩ := List.any_eq_true.mp hb
          exact absurd ((mem_depKeys deps r.overridingKey).mpr
            ⟨d, hd, by simpa using hdk⟩) h
    rw [hany]
    rfl

end UserCredits
